import Mathlib

/-!
The librpcudp: request codec, registry, dispatcher and server life cycle

A shallow embedding of `src/rpc.c` / `src/rpc.h`.

Conventions of the embedding

* A byte is a `Nat`; the delimiter and string terminator is `0`.
* A `char *` is the list of bytes stored from the pointed-to address up to the
  end of the object it points into; the byte after the end is a terminator.
  Reading it as a C string (`%s`, `strlen`, `strcmp`) stops at the first `0`
  (`cstr`).  A nullable pointer is an `Option`.
* A pointer `p` that walks a buffer with bound `end` is the list of the bytes
  of `[p, end)`; `p < end` is `p ≠ []`, `p++` drops the head.
* `size_t` arithmetic that can wrap is written with an explicit `% 2^64`.
-/

namespace Rpc

/-! ## Constants (`rpc.h`, `rpc.c`, `errno.h`, `limits.h`) -/

def MAX_FUNCTIONS : Nat := 10
def MAX_ARGS : Nat := 10
def RPC_BUFFER_SIZE : Nat := 2048
def RPC_MAX_PACKET_SIZE : Nat := 4096
def NAME_SIZE : Nat := 50
def RPC_SUCCESS : Int := 0
def RPC_ERROR : Int := -1
def EINVAL : Int := 22
def EOVERFLOW : Int := 75
def INT_MAX : Nat := 2147483647
def SIZE_MOD : Nat := 2 ^ 64

/-- A `char *` (see the conventions above). -/
abbrev CharPtr := List Nat

/-- A `char **`: an array of nullable `char *`. -/
abbrev Argv := List (Option CharPtr)

/-- The C string read at a pointer: the bytes before the first `0`. -/
def cstr : CharPtr → List Nat
  | [] => []
  | c :: rest => if c = 0 then [] else c :: cstr rest

/-- The C function `strlen`. -/
def strlen (s : CharPtr) : Nat := (cstr s).length

/-- The bytes of an ASCII string literal. -/
def bytes (s : String) : List Nat := s.toList.map Char.toNat

/-- Subtraction on `size_t`. -/
def size_sub (a b : Nat) : Nat := (a + SIZE_MOD - b % SIZE_MOD) % SIZE_MOD

/-! ## `parse_args` (rpc.c 225-292) -/

/-- The loop `while (p < end && *p == 0) p++;`. -/
def skip_zeros : List Nat → List Nat
  | [] => []
  | c :: rest => if c = 0 then skip_zeros rest else c :: rest

/-- The loop `while (p < end && *p != 0) p++;`. -/
def skip_nonzeros : List Nat → List Nat
  | [] => []
  | c :: rest => if c ≠ 0 then skip_nonzeros rest else c :: rest

/-- The main loop of `parse_args` (lines 246-268) from the state
`(p, arg_count, argv)`; the result is the state at loop exit.  Every iteration
that does not leave the loop advances `p`, so `fuel` bounds the iterations;
`none` is "out of fuel". -/
def parse_loop (argv_size : Nat) :
    Nat → List Nat → Nat → Argv → Option (List Nat × Nat × Argv)
  | 0, _, _, _ => none
  | fuel + 1, p, arg_count, argv =>
    if p ≠ [] ∧ arg_count < size_sub argv_size 1 then
      let p1 := skip_zeros p
      if p1 = [] then some (p1, arg_count, argv)
      else
        let argv1 := argv.set arg_count (some p1)
        let arg_count1 := arg_count + 1
        let p2 := skip_nonzeros p1
        if p2 = [] then some (p2, arg_count1, argv1)
        else parse_loop argv_size fuel p2 arg_count1 argv1
    else some (p, arg_count, argv)

/-- What `parse_args` leaves behind: the return value, `*argc_ptr` and the
array `*argv_ptr`. -/
structure parse_result where
  ret : Int
  argc : Int
  argv : Argv

/-- The function `parse_args(buffer, bufsize, argc_ptr, argv_ptr, argv_size)`.
`buffer` is the memory at the pointer, of which the first `bufsize` bytes are
parsed; `argc` is the value of `*argc_ptr` before the call and `argv` the
content of the array `*argv_ptr`.  The three pointers are non-null by type.
The result is `none` only when the loop runs out of fuel. -/
def parse_args (buffer : List Nat) (bufsize : Nat) (argc : Int) (argv : Argv)
    (argv_size : Nat) : Option parse_result :=
  if bufsize = 0 then some ⟨EINVAL, argc, argv⟩
  else
    match parse_loop argv_size (bufsize + 1) (buffer.take bufsize) 0 argv with
    | none => none
    | some (p, arg_count, argv1) =>
      if p ≠ [] ∧ skip_zeros p ≠ [] then some ⟨EOVERFLOW, argc, argv1⟩
      else
        let argv2 := argv1.set arg_count none
        if arg_count > INT_MAX then some ⟨EINVAL, argc, argv2⟩
        else some ⟨0, (arg_count : Int), argv2⟩

/-! ## Formatting -/

/-- The conversion `%d` of a non-negative number: its decimal digits. -/
def fmt_nat (n : Nat) : List Nat := (Nat.toDigits 10 n).map Char.toNat

/-- The conversion `%d`. -/
def fmt_d (x : Int) : List Nat :=
  if x < 0 then 45 :: fmt_nat (-x).toNat else fmt_nat x.toNat

/-- The call `snprintf(dst + pos, size, fmt, ...)`, where `out` is the complete
formatted text.  An array that is filled through `snprintf` is modelled by the
bytes in front of the terminator that the last call stored.  The result is the
new content of `dst` and the return value: the length of `out`, whether or not
it was cut to `size - 1` bytes. -/
def snprintf (dst : List Nat) (pos size : Nat) (out : List Nat) : List Nat × Int :=
  (if size = 0 then dst else dst.take pos ++ out.take (size - 1),
   if out.length > INT_MAX then -1 else (out.length : Int))

/-! ## The request encoder of `rpc_client_call` (rpc.c 409-433) -/

/-- The loop `for (i = 0; i < argc; i++)` that builds the request, from the
state `(i, pos, request_buffer)` with `n = argc - i` iterations to go; a slot of
`argv` outside the list reads as NULL.  The result is `pos` and the buffer at
loop exit. -/
def build_request_loop (argv : Argv) : Nat → Nat → Nat → List Nat → Nat × List Nat
  | 0, _, pos, buf => (pos, buf)
  | n + 1, i, pos, buf =>
    match argv.getD i none with
    | none => build_request_loop argv n (i + 1) pos buf
    | some a =>
      let remaining := size_sub (size_sub RPC_MAX_PACKET_SIZE pos) 1
      if remaining ≤ 1 then (pos, buf)
      else
        let r := snprintf buf pos remaining (cstr a ++ [0])
        if r.2 < 0 ∨ r.2.toNat ≥ remaining then (pos, r.1)
        else build_request_loop argv n (i + 1) (pos + r.2.toNat) r.1

/-- The datagram that `rpc_client_call` hands to `sendto`: the first `pos`
bytes of `request_buffer` after the encoding loop and the terminator stored at
`request_buffer[pos]` (lines 428-433). -/
def build_request (argc : Int) (argv : Argv) : List Nat :=
  let r := build_request_loop argv argc.toNat 0 0 []
  let request_buffer :=
    if r.1 < RPC_MAX_PACKET_SIZE then r.2.set r.1 0
    else r.2.set (RPC_MAX_PACKET_SIZE - 1) 0
  request_buffer.take r.1

/-- The results of the socket calls made by one `rpc_client_call`; `recvfrom`
is the reply datagram, `none` when the call fails or times out. -/
structure client_env where
  socket : Int
  setsockopt : Int
  inet_pton : Int
  sendto : Int
  recvfrom : Option (List Nat)

/-- What one `rpc_client_call` does: its return value, the datagram passed to
`sendto` (`none` when `sendto` is not reached) and the text left in `response`
(`none` when it is not written). -/
structure client_result where
  ret : Int
  sent : Option (List Nat)
  response : Option (List Nat)

/-- The function `rpc_client_call`; `response` tells whether the response
pointer is non-null.  The port only goes into the address given to `sendto`. -/
def rpc_client_call (server_ip : Option CharPtr) (_port : Int) (argc : Int)
    (argv : Option Argv) (response : Bool) (response_size : Nat) (env : client_env) :
    client_result :=
  match argv with
  | none => ⟨RPC_ERROR, none, none⟩
  | some argv =>
    if argc < 1 ∨ server_ip.isNone ∨ response = false ∨ response_size = 0 then
      ⟨RPC_ERROR, none, none⟩
    else
      let request := build_request argc argv
      if env.socket < 0 then ⟨RPC_ERROR, none, none⟩
      else if env.setsockopt < 0 then ⟨RPC_ERROR, none, none⟩
      else if env.inet_pton ≤ 0 then ⟨RPC_ERROR, none, none⟩
      else if env.sendto < 0 then ⟨RPC_ERROR, some request, none⟩
      else
        match env.recvfrom with
        | none => ⟨RPC_ERROR, some request, none⟩
        | some reply => ⟨RPC_SUCCESS, some request, some (cstr (reply.take (response_size - 1)))⟩

/-! ## The server state -/

/-- A callback of type `rpc_string_cb`.  `stop_func` and `echo_func` work on the
global context; every other callback (`add_func`, `hello_func`, which keep
their result in a buffer of their own) is a function of its arguments. -/
inductive rpc_string_cb where
  | stop_func
  | echo_func
  | extern_cb (f : Int → Option Argv → Option CharPtr)

/-- The struct `rpc_func_t`; `name` holds the bytes of the array `char name[50]`
in front of its terminator. -/
structure rpc_func_t where
  name : List Nat
  func : Option rpc_string_cb

/-- The struct `rpc_context_t`; `echo_buffer` holds the bytes of the array in
front of its terminator. -/
structure rpc_context_t where
  functions : List rpc_func_t
  function_count : Nat
  sock_fd : Int
  keep_running : Bool
  server_thread : Nat
  echo_buffer : List Nat

/-- The struct `client_info_t`. -/
structure client_info_t where
  addr : Nat
  addr_len : Nat

/-- The global context `g_ctx` together with a record of what the server did to
the outside: the datagrams passed to `sendto`, the callbacks that
`call_function` invoked, the descriptors closed and the threads joined, each
oldest first. -/
structure World where
  g_ctx : rpc_context_t
  sent : List (client_info_t × List Nat)
  calls : List (rpc_string_cb × Int × Option Argv)
  closed : List Int
  joined : List Nat

/-- The initial value `g_ctx = {0}`. -/
def g_ctx_zero : rpc_context_t :=
  ⟨List.replicate MAX_FUNCTIONS ⟨[], none⟩, 0, 0, false, 0, []⟩

/-- The state of a freshly started process. -/
def World.start : World := ⟨g_ctx_zero, [], [], [], []⟩

/-! ## Callbacks (rpc.c 99-149) -/

/-- The function `stop_func`. -/
def stop_func (_argc : Int) (_argv : Option Argv) (w : World) : World × Option CharPtr :=
  ({ w with g_ctx := { w.g_ctx with keep_running := false } }, some (bytes "0"))

/-- The text that `echo_func` formats for argument `i`: `" argv[%d]=%s"` with
the string between two quote characters (byte 39). -/
def echo_piece (i : Nat) (a : CharPtr) : List Nat :=
  bytes " argv[" ++ fmt_d (i : Int) ++ bytes "]=" ++ [39] ++ cstr a ++ [39]

/-- The loop `for (i = 0; i < argc; i++)` of `echo_func`, from the state
`(i, pos, echo_buffer)` with `n = argc - i` iterations to go; the result is the
buffer at loop exit. -/
def echo_loop (argv : Argv) : Nat → Nat → Nat → List Nat → List Nat
  | 0, _, _, buf => buf
  | n + 1, i, pos, buf =>
    match argv.getD i none with
    | none => echo_loop argv n (i + 1) pos buf
    | some a =>
      let remaining := size_sub RPC_BUFFER_SIZE pos
      if remaining ≤ 1 then buf
      else
        let r := snprintf buf pos remaining (echo_piece i a)
        if r.2 < 0 ∨ r.2.toNat ≥ remaining then r.1
        else echo_loop argv n (i + 1) (pos + r.2.toNat) r.1

/-- The function `echo_func`; the result is the text at the returned pointer. -/
def echo_func (argc : Int) (argv : Option Argv) (w : World) : World × Option CharPtr :=
  match argv with
  | none => (w, some (bytes "error: invalid arguments"))
  | some argv =>
    let remaining := size_sub RPC_BUFFER_SIZE 0
    if remaining ≤ 1 then (w, some (bytes "error: buffer overflow"))
    else
      let r := snprintf w.g_ctx.echo_buffer 0 remaining (bytes "argc=" ++ fmt_d argc)
      if r.2 < 0 ∨ r.2.toNat ≥ remaining then
        ({ w with g_ctx := { w.g_ctx with echo_buffer := r.1 } },
          some (bytes "error: buffer overflow"))
      else
        let buf := echo_loop argv argc.toNat 0 r.2.toNat r.1
        ({ w with g_ctx := { w.g_ctx with echo_buffer := buf } }, some buf)

/-- The call of a callback through its function pointer. -/
def run_cb : rpc_string_cb → Int → Option Argv → World → World × Option CharPtr
  | .stop_func, argc, argv, w => stop_func argc argv w
  | .echo_func, argc, argv, w => echo_func argc argv w
  | .extern_cb f, argc, argv, w => (w, f argc argv)

/-! ## Registry and dispatcher (rpc.c 159-198) -/

/-- The function `register_str_func`. -/
def register_str_func (name : Option CharPtr) (func : Option rpc_string_cb)
    (ctx : rpc_context_t) : rpc_context_t × Int :=
  match name, func with
  | some name, some func =>
    if ctx.function_count ≥ MAX_FUNCTIONS then (ctx, RPC_ERROR)
    else
      let name_len := if strlen name ≥ NAME_SIZE then NAME_SIZE - 1 else strlen name
      ({ ctx with
          functions := ctx.functions.set ctx.function_count ⟨name.take name_len, some func⟩
          function_count := ctx.function_count + 1 }, RPC_SUCCESS)
  | _, _ => (ctx, RPC_ERROR)

/-- The loop of `call_function` over the entries `functions[0..function_count)`:
the first entry whose name compares equal (`strcmp`) and whose callback is
non-null is called; `none` when the loop ends without a call. -/
def call_function_scan (name : CharPtr) (argc : Int) (argv : Option Argv) (w : World) :
    List rpc_func_t → Option (World × Option CharPtr)
  | [] => none
  | e :: rest =>
    if cstr name = cstr e.name then
      match e.func with
      | some f => some (run_cb f argc argv { w with calls := w.calls ++ [(f, argc, argv)] })
      | none => call_function_scan name argc argv w rest
    else call_function_scan name argc argv w rest

/-- The function `call_function`. -/
def call_function (name : Option CharPtr) (argc : Int) (argv : Option Argv) (w : World) :
    World × Option CharPtr :=
  match name with
  | none => (w, some (bytes "-1"))
  | some name =>
    match call_function_scan name argc argv w
        (w.g_ctx.functions.take w.g_ctx.function_count) with
    | some r => r
    | none =>
      echo_func argc argv { w with calls := w.calls ++ [(rpc_string_cb.echo_func, argc, argv)] }

/-- The registrations of a start-up sequence, as `main` makes them, stopping at
the first call that does not return `RPC_SUCCESS`; the flag tells whether every
call succeeded. -/
def register_all : List (CharPtr × rpc_string_cb) → rpc_context_t → rpc_context_t × Bool
  | [], ctx => (ctx, true)
  | r :: rest, ctx =>
    if (register_str_func (some r.1) (some r.2) ctx).2 = RPC_SUCCESS then
      register_all rest (register_str_func (some r.1) (some r.2) ctx).1
    else ((register_str_func (some r.1) (some r.2) ctx).1, false)

/-- A start-up sequence that registers the name `stop` twice. -/
def sample_regs : List (CharPtr × rpc_string_cb) :=
  [(bytes "stop", rpc_string_cb.stop_func), (bytes "echo", rpc_string_cb.echo_func),
    (bytes "stop", rpc_string_cb.echo_func)]

/-! ## Request handling and the server loop (rpc.c 200-388) -/

/-- The function `send_result`. -/
def send_result (result : Option CharPtr) (client : Option client_info_t) (w : World) :
    World :=
  match client with
  | none => w
  | some client =>
    let r := snprintf [] 0 RPC_MAX_PACKET_SIZE (cstr (result.getD []))
    if r.2 < 0 ∨ r.2.toNat ≥ RPC_MAX_PACKET_SIZE then w
    else { w with sent := w.sent ++ [(client, r.1.take r.2.toNat)] }

/-- The function `rpc_handle_request`; `argv` is the content of the local array
`char *argv[MAX_ARGS]` on entry.  The result is `none` only when `parse_args`
gives none. -/
def rpc_handle_request (buffer : Option (List Nat)) (recv_size : Int)
    (client : Option client_info_t) (argv : Argv) (w : World) : Option (World × Int) :=
  match buffer with
  | none => some (w, RPC_ERROR)
  | some buffer =>
    if client.isNone then some (w, RPC_ERROR)
    else if recv_size < 0 ∨ recv_size ≥ (RPC_MAX_PACKET_SIZE : Int) then some (w, RPC_ERROR)
    else
      let buffer1 := buffer.set recv_size.toNat 0
      match parse_args buffer1 recv_size.toNat 0 argv MAX_ARGS with
      | none => none
      | some r =>
        if r.ret ≠ 0 then some (w, RPC_ERROR)
        else if r.argc > 0 ∧ (r.argv.getD 0 none).isSome then
          let c := call_function (r.argv.getD 0 none) (r.argc - 1) (some (r.argv.drop 1)) w
          some (send_result c.2 client c.1, RPC_SUCCESS)
        else some (w, RPC_ERROR)

def EINTR : Int := 4

/-- What the system delivers in one iteration of the server loop: the result
of `pselect` with `errno`, whether the socket is in the ready set, the datagram
that `recvfrom` takes (`none` when it fails) with its sender, and the content
of the stack slots that `rpc_handle_request` uses for `argv`. -/
structure server_event where
  ready : Int
  errno : Int
  fd_isset : Bool
  recv : Option (List Nat)
  client : client_info_t
  argv : Argv

/-- The buffer of the server thread after `memset` and `recvfrom` of at most
`sizeof(buffer) - 1` bytes. -/
def recv_buffer (d : List Nat) : List Nat :=
  d.take (RPC_MAX_PACKET_SIZE - 1) ++
    List.replicate (RPC_MAX_PACKET_SIZE - (d.take (RPC_MAX_PACKET_SIZE - 1)).length) 0

/-- The value that `recvfrom` returns. -/
def recv_len (r : Option (List Nat)) : Int :=
  match r with
  | none => -1
  | some d => ((d.take (RPC_MAX_PACKET_SIZE - 1)).length : Int)

/-- The function `rpc_server_thread`, run on the events of its successive
iterations; the result is the state when the loop is left or the events are
used up. -/
def rpc_server_thread : List server_event → World → Option World
  | [], w => some w
  | ev :: evs, w =>
    if w.g_ctx.keep_running = false then some w
    else if ev.ready < 0 then
      if ev.errno = EINTR then rpc_server_thread evs w else some w
    else if ev.ready > 0 ∧ ev.fd_isset = true then
      if recv_len ev.recv ≤ 0 then rpc_server_thread evs w
      else
        match rpc_handle_request (some (recv_buffer (ev.recv.getD []))) (recv_len ev.recv)
            (some ev.client) ev.argv w with
        | none => none
        | some r => rpc_server_thread evs r.1
    else rpc_server_thread evs w

/-! ## Life cycle (rpc.c 487-550) -/

/-- The results of the system calls of `rpc_init`. -/
structure init_env where
  socket : Int
  bind : Int
  pthread_create : Int
  tid : Nat

/-- A non-null `rpc_context_t *`: the address of `g_ctx`, the only context. -/
inductive ctx_ptr where
  | g_ctx

/-- The function `rpc_init`. -/
def rpc_init (env : init_env) (w : World) : World × Option ctx_ptr :=
  let w1 := { w with g_ctx := { w.g_ctx with keep_running := true, sock_fd := env.socket } }
  if env.socket < 0 then (w1, none)
  else if env.bind < 0 then
    ({ w1 with g_ctx := { w1.g_ctx with sock_fd := -1 }, closed := w1.closed ++ [env.socket] },
      none)
  else if env.pthread_create ≠ 0 then
    ({ w1 with g_ctx := { w1.g_ctx with sock_fd := -1 }, closed := w1.closed ++ [env.socket] },
      none)
  else ({ w1 with g_ctx := { w1.g_ctx with server_thread := env.tid } }, some ctx_ptr.g_ctx)

/-- The function `rpc_deinit`. -/
def rpc_deinit (ctx : Option ctx_ptr) (w : World) : World × Int :=
  match ctx with
  | none => (w, EINVAL)
  | some _ =>
    if w.g_ctx.keep_running = false then (w, EINVAL)
    else
      let w1 := { w with g_ctx := { w.g_ctx with keep_running := false },
                         joined := w.joined ++ [w.g_ctx.server_thread] }
      if w1.g_ctx.sock_fd ≥ 0 then
        ({ w1 with g_ctx := { w1.g_ctx with sock_fd := -1 },
                   closed := w1.closed ++ [w1.g_ctx.sock_fd] }, 0)
      else (w1, 0)

/-! ## The callback `add_func` (main.c 33-62) -/

def RESULT_BUFFER_SIZE : Nat := 64

/-- The bounds of `long` (`limits.h`, 64-bit Linux). -/
def LONG_MAX : Int := 9223372036854775807
def LONG_MIN : Int := -9223372036854775808

/-- The C function `isspace` (C locale). -/
def isspace (c : Nat) : Bool := c = 32 ∨ (9 ≤ c ∧ c ≤ 13)

/-- The C function `isdigit`. -/
def isdigit (c : Nat) : Bool := 48 ≤ c ∧ c ≤ 57

/-- The white space that `strtol` skips in front of the number. -/
def skip_spaces : List Nat → List Nat
  | [] => []
  | c :: rest => if isspace c then skip_spaces rest else c :: rest

/-- The value of the leading decimal digits of a text, after the digits that
gave `acc`; the scan ends at the first byte that is not a digit. -/
def digits_value : Nat → List Nat → Nat
  | acc, [] => acc
  | acc, c :: rest => if isdigit c then digits_value (acc * 10 + (c - 48)) rest else acc

/-- The call `strtol(nptr, NULL, 10)` on the C string at `nptr`: white space,
an optional sign, decimal digits; a value outside the range of `long` gives
`LONG_MIN` or `LONG_MAX`. -/
def strtol (nptr : CharPtr) : Int :=
  match skip_spaces (cstr nptr) with
  | 45 :: rest => max LONG_MIN (-(digits_value 0 rest : Int))
  | 43 :: rest => min LONG_MAX (digits_value 0 rest : Int)
  | rest => min LONG_MAX (digits_value 0 rest : Int)

/-- The conversion of an integer to `int32_t`: the value modulo `2^32` in the
range `-2^31 .. 2^31 - 1`. -/
def to_int32 (x : Int) : Int := (x + 2147483648) % 4294967296 - 2147483648

/-- The branch of `add_func` for missing arguments: `snprintf(result, 64, "-2")`
into the cleared buffer. -/
def add_func_missing : Option CharPtr :=
  if (snprintf [] 0 RESULT_BUFFER_SIZE (bytes "-2")).2 < 0 ∨
      (snprintf [] 0 RESULT_BUFFER_SIZE (bytes "-2")).2.toNat ≥ RESULT_BUFFER_SIZE then
    some (bytes "Error: Buffer overflow")
  else some (snprintf [] 0 RESULT_BUFFER_SIZE (bytes "-2")).1

/-- The function `add_func`; the result is the text at the returned pointer, its
own buffer `result`, cleared at every call.  A slot of `argv` outside the list
reads as NULL. -/
def add_func (argc : Int) (argv : Option Argv) : Option CharPtr :=
  match argv with
  | none => add_func_missing
  | some argv =>
    if argc ≠ 2 then add_func_missing
    else
      match argv.getD 0 none, argv.getD 1 none with
      | some a0, some a1 =>
        let num1 := to_int32 (strtol a0)
        let num2 := to_int32 (strtol a1)
        let sum := to_int32 (num1 + num2)
        if (snprintf [] 0 RESULT_BUFFER_SIZE (fmt_d sum)).2 < 0 ∨
            (snprintf [] 0 RESULT_BUFFER_SIZE (fmt_d sum)).2.toNat ≥ RESULT_BUFFER_SIZE then
          some (bytes "Error: Buffer overflow")
        else some (snprintf [] 0 RESULT_BUFFER_SIZE (fmt_d sum)).1
      | _, _ => add_func_missing

/-- A name of 51 bytes: 49 times `a`, then `bc`. -/
def long_name : CharPtr := List.replicate 49 97 ++ [98, 99]

/-- The registration of `add` that `main` makes first. -/
def add_regs : List (CharPtr × rpc_string_cb) :=
  [(bytes "add", rpc_string_cb.extern_cb add_func)]

/-! ## Reference definitions -/

/-- The maximal runs of non-zero bytes of a buffer, in buffer order: the buffer
split at the delimiter byte, empty pieces dropped. -/
def tokens (buf : List Nat) : List (List Nat) :=
  (buf.splitOn 0).filter (fun t => !t.isEmpty)

/-- The tokens that a decoded `argv` holds: the C strings at `argv[0..argc)`. -/
def argv_strings (argc : Nat) (argv : Argv) : List (Option (List Nat)) :=
  (argv.take argc).map (Option.map cstr)

/-- The delimiter-framed encoding of an argument list: every token followed by
one `0` byte. -/
def frame (args : List (List Nat)) : List Nat :=
  (args.map (fun a => a ++ [0])).flatten

/-- The leading tokens that fit a request: a token is taken while the framed
size, the token and its delimiter included, stays within
`RPC_MAX_PACKET_SIZE - 2` bytes; `pos` is the framed size so far. -/
def fitting_tokens (pos : Nat) : List (List Nat) → List (List Nat)
  | [] => []
  | a :: rest =>
    if pos + a.length + 1 ≤ RPC_MAX_PACKET_SIZE - 2 then
      a :: fitting_tokens (pos + a.length + 1) rest
    else []

/-- The fallback text for the arguments `args`: `argc=n` followed, for every
`i`, by ` argv[i]=` and the `i`-th argument between quote characters. -/
def echo_rendering_from (i : Nat) : List (List Nat) → List Nat
  | [] => []
  | a :: rest =>
    bytes " argv[" ++ fmt_nat i ++ bytes "]=" ++ [39] ++ a ++ [39] ++
      echo_rendering_from (i + 1) rest

def echo_rendering (args : List (List Nat)) : List Nat :=
  bytes "argc=" ++ fmt_nat args.length ++ echo_rendering_from 0 args

/-! ## Facts about C strings and tokens -/

theorem skip_zeros_length_le (p : List Nat) : (skip_zeros p).length ≤ p.length := by
  induction p with
  | nil => simp [skip_zeros]
  | cons c rest ih =>
    unfold skip_zeros
    split
    · simp only [List.length_cons]; omega
    · exact le_refl _

theorem skip_nonzeros_length_le (p : List Nat) :
    (skip_nonzeros p).length ≤ p.length := by
  induction p with
  | nil => simp [skip_nonzeros]
  | cons c rest ih =>
    unfold skip_nonzeros
    split
    · simp only [List.length_cons]; omega
    · exact le_refl _

theorem skip_zeros_head (p : List Nat) (c : Nat) (q : List Nat)
    (h : skip_zeros p = c :: q) : c ≠ 0 := by
  induction p with
  | nil => simp [skip_zeros] at h
  | cons d rest ih =>
    unfold skip_zeros at h
    split at h
    · exact ih h
    · rename_i hd
      simp only [List.cons.injEq] at h
      exact h.1 ▸ hd

theorem tokens_nil : tokens [] = [] := by decide

theorem tokens_cons_zero (l : List Nat) : tokens (0 :: l) = tokens l := by
  simp [tokens, List.splitOn, List.splitOnP_cons]

theorem splitOn_zero_shape (l : List Nat) :
    ∃ tl, l.splitOn 0 = cstr l :: tl ∧
      tl.filter (fun t => !t.isEmpty) = tokens (skip_nonzeros l) := by
  induction l with
  | nil => exact ⟨[], by decide, by decide⟩
  | cons c r ih =>
    obtain ⟨tl, h1, h2⟩ := ih
    by_cases hc : c = 0
    · subst hc
      refine ⟨r.splitOn 0, ?_, ?_⟩
      · simp [List.splitOn, List.splitOnP_cons, cstr]
      · simp [skip_nonzeros, tokens_cons_zero]; rfl
    · refine ⟨tl, ?_, ?_⟩
      · have : (c :: r).splitOn 0 = (r.splitOn 0).modifyHead (List.cons c) := by
          simp [List.splitOn, List.splitOnP_cons, hc]
        rw [this, h1]
        simp [cstr, hc]
      · simpa [skip_nonzeros, hc] using h2

theorem tokens_cons_ne (c : Nat) (l : List Nat) (hc : c ≠ 0) :
    tokens (c :: l) = cstr (c :: l) :: tokens (skip_nonzeros (c :: l)) := by
  obtain ⟨tl, h1, h2⟩ := splitOn_zero_shape (c :: l)
  have hne : cstr (c :: l) ≠ [] := by simp [cstr, hc]
  unfold tokens
  rw [h1, List.filter_cons]
  have : (!(cstr (c :: l)).isEmpty) = true := by
    cases h : cstr (c :: l) with
    | nil => exact absurd h hne
    | cons _ _ => rfl
  rw [if_pos this, h2]
  rfl

theorem tokens_skip_zeros (p : List Nat) : tokens (skip_zeros p) = tokens p := by
  induction p with
  | nil => rfl
  | cons c rest ih =>
    unfold skip_zeros
    split
    · rename_i hc
      subst hc
      rw [ih, tokens_cons_zero]
    · rfl

theorem skip_zeros_eq_nil_iff (p : List Nat) : skip_zeros p = [] ↔ tokens p = [] := by
  constructor
  · intro h
    rw [← tokens_skip_zeros, h, tokens_nil]
  · intro h
    cases hs : skip_zeros p with
    | nil => rfl
    | cons c q =>
      have hc := skip_zeros_head p c q hs
      rw [← tokens_skip_zeros, hs, tokens_cons_ne c q hc] at h
      exact absurd h (List.cons_ne_nil _ _)

/-! ## The decoding loop computes the tokens -/

theorem parse_loop_spec (argv_size : Nat) :
    ∀ (fuel : Nat) (p : List Nat) (k : Nat) (argv : Argv),
      p.length < fuel → k ≤ size_sub argv_size 1 →
      size_sub argv_size 1 < argv.length →
      ∃ p1 argv1,
        parse_loop argv_size fuel p k argv =
          some (p1, k + min (size_sub argv_size 1 - k) (tokens p).length, argv1) ∧
        tokens p1 = (tokens p).drop (size_sub argv_size 1 - k) ∧
        argv1.length = argv.length ∧
        (∀ i, i < k ∨ k + min (size_sub argv_size 1 - k) (tokens p).length ≤ i →
          argv1[i]? = argv[i]?) ∧
        (∀ j, j < min (size_sub argv_size 1 - k) (tokens p).length →
          (argv1[k + j]?).map (Option.map cstr) = some ((tokens p)[j]?)) := by
  intro fuel
  induction fuel with
  | zero => intro p k argv h; omega
  | succ fuel ih =>
    intro p k argv hfuel hk hcap
    unfold parse_loop
    by_cases hcond : p ≠ [] ∧ k < size_sub argv_size 1
    · rw [if_pos hcond]
      cases hs : skip_zeros p with
      | nil =>
        have ht : tokens p = [] := (skip_zeros_eq_nil_iff p).1 hs
        refine ⟨[], argv, ?_, ?_, rfl, ?_, ?_⟩
        · simp [ht]
        · simp [ht, tokens_nil]
        · intro i _; rfl
        · intro j hj; simp [ht] at hj
      | cons c q =>
        have hc : c ≠ 0 := skip_zeros_head p c q hs
        have ht : tokens p = cstr (c :: q) :: tokens (skip_nonzeros (c :: q)) := by
          rw [← tokens_skip_zeros, hs, tokens_cons_ne c q hc]
        have hlen1 : (c :: q).length ≤ p.length := hs ▸ skip_zeros_length_le p
        have hlen2 : (skip_nonzeros (c :: q)).length ≤ q.length := by
          unfold skip_nonzeros
          rw [if_pos hc]
          exact skip_nonzeros_length_le q
        have hk1 : k < argv.length := by omega
        simp only [reduceCtorEq, if_false]
        by_cases h2 : skip_nonzeros (c :: q) = []
        · rw [if_pos h2]
          have ht2 : tokens p = [cstr (c :: q)] := by rw [ht, h2, tokens_nil]
          have hm : min (size_sub argv_size 1 - k) (tokens p).length = 1 := by
            rw [ht2]; simp; omega
          refine ⟨[], argv.set k (some (c :: q)), ?_, ?_, ?_, ?_, ?_⟩
          · rw [hm, h2]
          · rw [ht2, tokens_nil]
            have : size_sub argv_size 1 - k = (size_sub argv_size 1 - k - 1) + 1 := by omega
            rw [this]; simp
          · simp
          · intro i hi
            rw [hm] at hi
            rw [List.getElem?_set_ne (by omega)]
          · intro j hj
            rw [hm] at hj
            have hj0 : j = 0 := by omega
            subst hj0
            simp [ht2, List.getElem?_set_self hk1]
        · rw [if_neg h2]
          simp only [List.length_cons] at hlen1
          obtain ⟨p1, argv1, e1, e2, e3, e4, e5⟩ :=
            ih (skip_nonzeros (c :: q)) (k + 1) (argv.set k (some (c :: q)))
              (by omega) (by omega) (by simpa using hcap)
          have hm : min (size_sub argv_size 1 - k) (tokens p).length =
              1 + min (size_sub argv_size 1 - (k + 1))
                (tokens (skip_nonzeros (c :: q))).length := by
            rw [ht]; simp only [List.length_cons]; omega
          refine ⟨p1, argv1, ?_, ?_, ?_, ?_, ?_⟩
          · rw [e1, hm]
            have : k + 1 + min (size_sub argv_size 1 - (k + 1))
                (tokens (skip_nonzeros (c :: q))).length =
              k + (1 + min (size_sub argv_size 1 - (k + 1))
                (tokens (skip_nonzeros (c :: q))).length) := by omega
            rw [this]
          · rw [e2, ht]
            have : size_sub argv_size 1 - k = (size_sub argv_size 1 - (k + 1)) + 1 := by omega
            rw [this]; simp
          · simpa using e3
          · intro i hi
            rw [hm] at hi
            rw [e4 i (by omega), List.getElem?_set_ne (by omega)]
          · intro j hj
            rw [hm] at hj
            cases j with
            | zero =>
              rw [Nat.add_zero, e4 k (by omega), List.getElem?_set_self hk1, ht]
              simp
            | succ j =>
              have := e5 j (by omega)
              have hidx : k + (j + 1) = k + 1 + j := by omega
              rw [hidx, this, ht]
              simp
    · rw [if_neg hcond]
      have hm : min (size_sub argv_size 1 - k) (tokens p).length = 0 := by
        by_cases hp : p = []
        · subst hp; simp [tokens_nil]
        · have : ¬ k < size_sub argv_size 1 := fun h => hcond ⟨hp, h⟩
          have : size_sub argv_size 1 - k = 0 := by omega
          rw [this]; simp
      refine ⟨p, argv, ?_, ?_, rfl, ?_, ?_⟩
      · rw [hm]; rfl
      · by_cases hp : p = []
        · subst hp; simp [tokens_nil]
        · have : ¬ k < size_sub argv_size 1 := fun h => hcond ⟨hp, h⟩
          have : size_sub argv_size 1 - k = 0 := by omega
          rw [this]; simp
      · intro i _; rfl
      · intro j hj; rw [hm] at hj; omega

theorem size_sub_one (n : Nat) (h1 : 1 ≤ n) (h2 : n < SIZE_MOD) :
    size_sub n 1 = n - 1 := by
  unfold size_sub SIZE_MOD at *
  omega

theorem overflow_check_iff (p : List Nat) :
    (p ≠ [] ∧ skip_zeros p ≠ []) ↔ tokens p ≠ [] := by
  rw [Ne, Ne, Ne, skip_zeros_eq_nil_iff]
  constructor
  · exact fun h => h.2
  · intro h
    refine ⟨?_, h⟩
    rintro rfl
    exact h tokens_nil

/-- The complete behaviour of `parse_args` on the first `bufsize > 0` bytes of
a buffer. -/
theorem parse_args_spec_region (buffer : List Nat) (bufsize : Nat) (argc : Int) (argv : Argv)
    (argv_size : Nat) (hlen : bufsize ≠ 0) (h1 : 1 ≤ argv_size)
    (h2 : argv_size < SIZE_MOD) (hargv : argv.length = argv_size) :
    ∃ r, parse_args buffer bufsize argc argv argv_size = some r ∧
      (argv_size - 1 < (tokens (buffer.take bufsize)).length → r.ret = EOVERFLOW ∧ r.argc = argc) ∧
      ((tokens (buffer.take bufsize)).length ≤ argv_size - 1 → INT_MAX < (tokens (buffer.take bufsize)).length →
        r.ret = EINVAL ∧ r.argc = argc) ∧
      ((tokens (buffer.take bufsize)).length ≤ argv_size - 1 → (tokens (buffer.take bufsize)).length ≤ INT_MAX →
        r.ret = 0 ∧ r.argc = ((tokens (buffer.take bufsize)).length : Int) ∧
        argv_strings (tokens (buffer.take bufsize)).length r.argv = (tokens (buffer.take bufsize)).map some ∧
        r.argv[(tokens (buffer.take bufsize)).length]? = some none) := by
  have hcap := size_sub_one argv_size h1 h2
  obtain ⟨p1, argv1, e1, e2, e3, e4, e5⟩ :=
    parse_loop_spec argv_size (bufsize + 1) (buffer.take bufsize) 0 argv
      (by have := List.length_take_le bufsize buffer; omega) (by omega)
      (by rw [hcap, hargv]; omega)
  rw [hcap] at e1 e2 e4 e5
  simp only [Nat.sub_zero, Nat.zero_add] at e1 e2 e4 e5
  unfold parse_args
  rw [if_neg hlen, e1]
  simp only
  by_cases hov : argv_size - 1 < (tokens (buffer.take bufsize)).length
  · have hck : p1 ≠ [] ∧ skip_zeros p1 ≠ [] := by
      rw [overflow_check_iff, e2]
      intro h
      have := congrArg List.length h
      simp at this
      omega
    rw [if_pos hck]
    exact ⟨_, rfl, fun _ => ⟨rfl, rfl⟩, fun h => by omega, fun h => by omega⟩
  · have hck : ¬ (p1 ≠ [] ∧ skip_zeros p1 ≠ []) := by
      rw [overflow_check_iff, e2]
      simp
      omega
    have hmin : min (argv_size - 1) (tokens (buffer.take bufsize)).length = (tokens (buffer.take bufsize)).length := by
      omega
    rw [if_neg hck, hmin]
    rw [hmin] at e4 e5
    by_cases hbig : (tokens (buffer.take bufsize)).length > INT_MAX
    · rw [if_pos hbig]
      exact ⟨_, rfl, fun h => absurd h hov, fun _ _ => ⟨rfl, rfl⟩, fun _ h => by omega⟩
    · rw [if_neg hbig]
      refine ⟨_, rfl, fun h => absurd h hov, fun _ h => absurd h hbig, fun _ _ => ?_⟩
      refine ⟨rfl, rfl, ?_, ?_⟩
      · unfold argv_strings
        apply List.ext_getElem?
        intro i
        by_cases hi : i < (tokens (buffer.take bufsize)).length
        · have h5 := e5 i hi
          simp only [List.getElem?_map, List.getElem?_take, if_pos hi]
          rw [List.getElem?_set_ne (by omega), h5]
          simp [List.getElem?_eq_getElem hi]
        · simp only [List.getElem?_map, List.getElem?_take, if_neg hi]
          rw [List.getElem?_eq_none (by omega)]
          rfl
      · simp only
        rw [List.getElem?_set_self (by omega)]

/-- The complete behaviour of `parse_args` on a non-empty buffer. -/
theorem parse_args_spec (buffer : List Nat) (argc : Int) (argv : Argv)
    (argv_size : Nat) (hne : buffer ≠ []) (h1 : 1 ≤ argv_size)
    (h2 : argv_size < SIZE_MOD) (hargv : argv.length = argv_size) :
    ∃ r, parse_args buffer buffer.length argc argv argv_size = some r ∧
      (argv_size - 1 < (tokens buffer).length → r.ret = EOVERFLOW ∧ r.argc = argc) ∧
      ((tokens buffer).length ≤ argv_size - 1 → INT_MAX < (tokens buffer).length →
        r.ret = EINVAL ∧ r.argc = argc) ∧
      ((tokens buffer).length ≤ argv_size - 1 → (tokens buffer).length ≤ INT_MAX →
        r.ret = 0 ∧ r.argc = ((tokens buffer).length : Int) ∧
        argv_strings (tokens buffer).length r.argv = (tokens buffer).map some ∧
        r.argv[(tokens buffer).length]? = some none) := by
  have hlen : buffer.length ≠ 0 := by
    intro h; exact hne (List.length_eq_zero.1 h)
  have h := parse_args_spec_region buffer buffer.length argc argv argv_size hlen h1 h2 hargv
  rw [List.take_length] at h
  exact h

theorem filter_split (l : List Nat) :
    l.filter (fun c => c ≠ 0) =
      cstr l ++ (skip_nonzeros l).filter (fun c => c ≠ 0) := by
  induction l with
  | nil => rfl
  | cons c r ih =>
    by_cases hc : c = 0
    · subst hc; simp [cstr, skip_nonzeros]
    · simp only [ne_eq, decide_not] at ih
      simp [cstr, skip_nonzeros, hc, ih]

theorem tokens_flatten (buf : List Nat) :
    (tokens buf).flatten = buf.filter (fun c => c ≠ 0) := by
  generalize h : buf.length = n
  induction n using Nat.strong_induction_on generalizing buf with
  | _ n ih =>
    cases buf with
    | nil => rfl
    | cons c r =>
      by_cases hc : c = 0
      · subst hc
        rw [tokens_cons_zero, ih r.length (by simp [← h]) r rfl]
        simp
      · have hlen : (skip_nonzeros (c :: r)).length < n := by
          have := skip_nonzeros_length_le r
          unfold skip_nonzeros
          rw [if_pos hc]
          simp only [List.length_cons] at h
          omega
        rw [tokens_cons_ne c r hc, List.flatten_cons, ih _ hlen _ rfl,
          ← filter_split]

theorem nil_not_mem_tokens (buf : List Nat) : [] ∉ tokens buf := by
  simp [tokens]

theorem reduceOption_map_some {α : Type} (l : List α) :
    (l.map some).filterMap id = l := by
  induction l with
  | nil => rfl
  | cons a r ih => simp [List.filterMap_cons, ih]

/-- A buffer of `n` one-byte tokens, each followed by a delimiter. -/
theorem tokens_replicate (n : Nat) :
    tokens (List.replicate n [1, 0]).flatten = List.replicate n [1] := by
  induction n with
  | zero => rfl
  | succ n ih =>
    rw [List.replicate_succ, List.flatten_cons]
    show tokens (1 :: 0 :: (List.replicate n [1, 0]).flatten) = _
    rw [tokens_cons_ne 1 _ (by decide)]
    have h1 : cstr (1 :: 0 :: (List.replicate n [1, 0]).flatten) = [1] := by
      simp [cstr]
    have h2 : skip_nonzeros (1 :: 0 :: (List.replicate n [1, 0]).flatten) =
        0 :: (List.replicate n [1, 0]).flatten := by
      simp [skip_nonzeros]
    rw [h1, h2, tokens_cons_zero, ih, List.replicate_succ]

/-! ## Decoding: overflow and result -/

/-- C2: on a non-empty buffer, with room for `argv_size ≥ 1` pointers,
`parse_args` returns `EOVERFLOW` exactly when the buffer holds more than
`argv_size - 1` tokens; and when it returns `0` the strings in `argv[0..argc)`
are all the tokens of the buffer, so that together they hold every non-zero
byte of the buffer, in order. -/
theorem parse_args_overflow_iff (buffer : List Nat) (argc : Int) (argv : Argv)
    (argv_size : Nat) (hne : buffer ≠ []) (h1 : 1 ≤ argv_size)
    (h2 : argv_size < SIZE_MOD) (hargv : argv.length = argv_size) :
    ∃ r, parse_args buffer buffer.length argc argv argv_size = some r ∧
      (r.ret = EOVERFLOW ↔ argv_size - 1 < (tokens buffer).length) ∧
      (r.ret = 0 →
        argv_strings r.argc.toNat r.argv = (tokens buffer).map some ∧
        ((argv_strings r.argc.toNat r.argv).filterMap id).flatten =
          buffer.filter (fun c => c ≠ 0)) := by
  obtain ⟨r, hr, hov, hinv, hok⟩ := parse_args_spec buffer argc argv argv_size hne h1 h2 hargv
  refine ⟨r, hr, ?_, ?_⟩
  · constructor
    · intro hret
      by_contra hle
      have hle : (tokens buffer).length ≤ argv_size - 1 := by omega
      by_cases hbig : INT_MAX < (tokens buffer).length
      · have := (hinv hle hbig).1
        rw [hret] at this
        exact absurd this (by decide)
      · have := (hok hle (by omega)).1
        rw [hret] at this
        exact absurd this (by decide)
    · exact fun h => (hov h).1
  · intro hret
    have hle : (tokens buffer).length ≤ argv_size - 1 := by
      by_contra h
      have := (hov (by omega)).1
      rw [hret] at this
      exact absurd this (by decide)
    have hsmall : (tokens buffer).length ≤ INT_MAX := by
      by_contra h
      have := (hinv hle (by omega)).1
      rw [hret] at this
      exact absurd this (by decide)
    obtain ⟨_, hc, hs, _⟩ := hok hle hsmall
    have hn : r.argc.toNat = (tokens buffer).length := by rw [hc]; simp
    rw [hn, hs, reduceOption_map_some, tokens_flatten]
    exact ⟨rfl, rfl⟩

theorem parse_args_overflow_iff_witness :
    ∃ r, parse_args [97, 0, 98, 0] [97, 0, 98, 0].length 0 [none, none] 2 = some r ∧
      (r.ret = EOVERFLOW ↔ 2 - 1 < (tokens [97, 0, 98, 0]).length) ∧
      (r.ret = 0 →
        argv_strings r.argc.toNat r.argv = (tokens [97, 0, 98, 0]).map some ∧
        ((argv_strings r.argc.toNat r.argv).filterMap id).flatten =
          [97, 0, 98, 0].filter (fun c => c ≠ 0)) :=
  parse_args_overflow_iff [97, 0, 98, 0] 0 [none, none] 2 (by decide) (by decide)
    (by decide) (by decide)

/-- C4, as the code has it: on a non-empty buffer that holds at most
`argv_size - 1` tokens and at most `INT_MAX` tokens, `parse_args` returns `0`,
sets `argc` to the number of tokens, makes `argv[i]` a pointer to the `i`-th
token (read up to the next `0` byte or the end of the buffer) and sets
`argv[argc]` to NULL; no token is empty. -/
theorem parse_args_decodes (buffer : List Nat) (argc : Int) (argv : Argv)
    (argv_size : Nat) (hne : buffer ≠ []) (h2 : argv_size < SIZE_MOD)
    (hargv : argv.length = argv_size)
    (hfit : (tokens buffer).length + 1 ≤ argv_size)
    (hint : (tokens buffer).length ≤ INT_MAX) :
    ∃ r, parse_args buffer buffer.length argc argv argv_size = some r ∧
      r.ret = 0 ∧ r.argc = ((tokens buffer).length : Int) ∧
      (∀ i (hi : i < (tokens buffer).length),
        ∃ q, r.argv[i]? = some (some q) ∧ cstr q = (tokens buffer)[i]) ∧
      r.argv[(tokens buffer).length]? = some none ∧
      [] ∉ tokens buffer := by
  obtain ⟨r, hr, _, _, hok⟩ :=
    parse_args_spec buffer argc argv argv_size hne (by omega) h2 hargv
  obtain ⟨h0, hc, hs, hnull⟩ := hok (by omega) hint
  refine ⟨r, hr, h0, hc, ?_, hnull, nil_not_mem_tokens buffer⟩
  intro i hi
  have := congrArg (fun l => l[i]?) hs
  simp only [argv_strings, List.getElem?_map, List.getElem?_take, if_pos hi,
    List.getElem?_eq_getElem hi, Option.map_some'] at this
  cases hq : r.argv[i]? with
  | none => rw [hq] at this; simp at this
  | some o =>
    rw [hq] at this
    cases o with
    | none => simp at this
    | some q =>
      refine ⟨q, rfl, ?_⟩
      simpa using this

theorem parse_args_decodes_witness :
    ∃ r, parse_args [0, 97, 98, 0, 0, 99] [0, 97, 98, 0, 0, 99].length 0
        (List.replicate 10 none) 10 = some r ∧
      r.ret = 0 ∧ r.argc = ((tokens [0, 97, 98, 0, 0, 99]).length : Int) ∧
      (∀ i (hi : i < (tokens [0, 97, 98, 0, 0, 99]).length),
        ∃ q, r.argv[i]? = some (some q) ∧ cstr q = (tokens [0, 97, 98, 0, 0, 99])[i]) ∧
      r.argv[(tokens [0, 97, 98, 0, 0, 99]).length]? = some none ∧
      [] ∉ tokens [0, 97, 98, 0, 0, 99] :=
  parse_args_decodes [0, 97, 98, 0, 0, 99] 0 (List.replicate 10 none) 10 (by decide)
    (by decide) (by decide) (by decide) (by decide)

/-- C4 fails as stated: a buffer of `INT_MAX + 1` one-byte tokens, decoded into
an array of `INT_MAX + 2` slots, holds no more than `argv_size - 1` tokens, yet
`parse_args` returns `EINVAL`, not `0`. -/
theorem parse_args_decodes_counterexample :
    (List.replicate (INT_MAX + 1) [1, 0]).flatten ≠ [] ∧
    (tokens (List.replicate (INT_MAX + 1) [1, 0]).flatten).length ≤ (INT_MAX + 2) - 1 ∧
    (parse_args (List.replicate (INT_MAX + 1) [1, 0]).flatten
      (List.replicate (INT_MAX + 1) [1, 0]).flatten.length 0
      (List.replicate (INT_MAX + 2) none) (INT_MAX + 2)).map (fun r => r.ret) =
      some EINVAL := by
  have hne : (List.replicate (INT_MAX + 1) [1, 0]).flatten ≠ [] := by
    rw [List.replicate_succ]; simp
  have hlen : (tokens (List.replicate (INT_MAX + 1) [1, 0]).flatten).length =
      INT_MAX + 1 := by
    rw [tokens_replicate, List.length_replicate]
  obtain ⟨r, hr, _, hinv, _⟩ :=
    parse_args_spec (List.replicate (INT_MAX + 1) [1, 0]).flatten 0
      (List.replicate (INT_MAX + 2) none) (INT_MAX + 2) hne (by omega)
      (by unfold INT_MAX SIZE_MOD; omega) (List.length_replicate _ _)
  refine ⟨hne, by omega, ?_⟩
  rw [hr]
  exact congrArg some (hinv (by omega) (by omega)).1

/-! ## The request encoder -/

theorem size_sub_eq (a b : Nat) (hb : b ≤ a) (ha : a < SIZE_MOD) :
    size_sub a b = a - b := by
  unfold size_sub SIZE_MOD at *
  have : b % 2 ^ 64 = b := Nat.mod_eq_of_lt (by omega)
  rw [this]
  omega

theorem cstr_of_not_mem (a : List Nat) (h : 0 ∉ a) : cstr a = a := by
  induction a with
  | nil => rfl
  | cons c r ih =>
    have hc : c ≠ 0 := fun e => h (by simp [e])
    have hr : 0 ∉ r := fun e => h (by simp [e])
    simp [cstr, hc, ih hr]

theorem cstr_append_zero (a rest : List Nat) (h : 0 ∉ a) :
    cstr (a ++ 0 :: rest) = a := by
  induction a with
  | nil => simp [cstr]
  | cons c r ih =>
    have hc : c ≠ 0 := fun e => h (by simp [e])
    have hr : 0 ∉ r := fun e => h (by simp [e])
    simp [cstr, hc, ih hr]

theorem skip_nonzeros_append_zero (a rest : List Nat) (h : 0 ∉ a) :
    skip_nonzeros (a ++ 0 :: rest) = 0 :: rest := by
  induction a with
  | nil => simp [skip_nonzeros]
  | cons c r ih =>
    have hc : c ≠ 0 := fun e => h (by simp [e])
    have hr : 0 ∉ r := fun e => h (by simp [e])
    simp [skip_nonzeros, hc, ih hr]

theorem zero_not_mem_cstr (a : List Nat) : 0 ∉ cstr a := by
  induction a with
  | nil => simp [cstr]
  | cons c r ih =>
    by_cases hc : c = 0
    · simp [cstr, hc]
    · simp only [cstr, if_neg hc, List.mem_cons, not_or]
      exact ⟨fun e => hc e.symm, ih⟩

theorem tokens_frame (args : List (List Nat)) (h : ∀ a ∈ args, a ≠ [] ∧ 0 ∉ a) :
    tokens (frame args) = args := by
  induction args with
  | nil => rfl
  | cons a rest ih =>
    obtain ⟨hne, h0⟩ := h a (by simp)
    have hrest : ∀ b ∈ rest, b ≠ [] ∧ 0 ∉ b := fun b hb => h b (by simp [hb])
    have hf : frame (a :: rest) = a ++ 0 :: frame rest := by simp [frame]
    cases a with
    | nil => exact absurd rfl hne
    | cons c r =>
      have hc : c ≠ 0 := fun e => h0 (by simp [e])
      have e1 := cstr_append_zero (c :: r) (frame rest) h0
      have e2 := skip_nonzeros_append_zero (c :: r) (frame rest) h0
      rw [hf]
      rw [List.cons_append] at e1 e2 ⊢
      rw [tokens_cons_ne c _ hc, e1, e2, tokens_cons_zero, ih hrest]

theorem frame_cons (a : List Nat) (rest : List (List Nat)) :
    frame (a :: rest) = a ++ 0 :: frame rest := by simp [frame]

theorem frame_length_cons (a : List Nat) (rest : List (List Nat)) :
    (frame (a :: rest)).length = a.length + 1 + (frame rest).length := by
  rw [frame_cons]; simp; omega

theorem fitting_tokens_all (l : List (List Nat)) :
    ∀ pos, pos + (frame l).length ≤ RPC_MAX_PACKET_SIZE - 2 → fitting_tokens pos l = l := by
  induction l with
  | nil => intro pos _; rfl
  | cons a rest ih =>
    intro pos h
    rw [frame_length_cons] at h
    unfold fitting_tokens
    rw [if_pos (by omega), ih _ (by omega)]

theorem fitting_tokens_take (l : List (List Nat)) :
    ∀ pos, ∃ k, k ≤ l.length ∧ fitting_tokens pos l = l.take k ∧
      pos + (frame (l.take k)).length ≤ max pos (RPC_MAX_PACKET_SIZE - 2) ∧
      (k < l.length → RPC_MAX_PACKET_SIZE - 2 < pos + (frame (l.take (k + 1))).length) := by
  induction l with
  | nil => intro pos; exact ⟨0, le_refl _, rfl, by simp [frame], fun h => absurd h (by simp)⟩
  | cons a rest ih =>
    intro pos
    unfold fitting_tokens
    by_cases hfit : pos + a.length + 1 ≤ RPC_MAX_PACKET_SIZE - 2
    · rw [if_pos hfit]
      obtain ⟨k, hk, e, hle, hgt⟩ := ih (pos + a.length + 1)
      refine ⟨k + 1, by simp; omega, by rw [e]; rfl, ?_, ?_⟩
      · rw [List.take_succ_cons, frame_length_cons]
        have : max (pos + a.length + 1) (RPC_MAX_PACKET_SIZE - 2) = RPC_MAX_PACKET_SIZE - 2 := by
          omega
        rw [this] at hle
        omega
      · intro hlt
        have := hgt (by simpa using hlt)
        rw [List.take_succ_cons, frame_length_cons]
        omega
    · rw [if_neg hfit]
      refine ⟨0, by simp, rfl, by simp [frame], fun _ => ?_⟩
      rw [List.take_succ_cons, frame_length_cons]
      omega

/-- The encoding loop, from a state in which `pos` is the length of the buffer:
the bytes that will be sent are the buffer followed by the framed tokens that
fit. -/
theorem build_request_loop_spec (args : List CharPtr) :
    ∀ (n i pos : Nat) (buf : List Nat), i + n = args.length → buf.length = pos →
      pos ≤ RPC_MAX_PACKET_SIZE - 2 →
      (build_request_loop (args.map some) n i pos buf).2.take
          (build_request_loop (args.map some) n i pos buf).1 =
        buf ++ frame (fitting_tokens pos ((args.drop i).map cstr)) := by
  intro n
  induction n with
  | zero =>
    intro i pos buf hi hbuf _
    have : args.drop i = [] := List.drop_eq_nil_of_le (by omega)
    simp [build_request_loop, this, fitting_tokens, frame, ← hbuf]
  | succ n ih =>
    intro i pos buf hi hbuf hpos
    have hlt : i < args.length := by omega
    have hdrop : args.drop i = args[i] :: args.drop (i + 1) := List.drop_eq_getElem_cons hlt
    have hget : (args.map some).getD i none = some args[i] := by
      simp [List.getD, List.getElem?_eq_getElem hlt]
    have hrem : size_sub (size_sub RPC_MAX_PACKET_SIZE pos) 1 = RPC_MAX_PACKET_SIZE - 1 - pos := by
      unfold RPC_MAX_PACKET_SIZE at hpos ⊢
      have e1 : size_sub 4096 pos = 4096 - pos :=
        size_sub_eq 4096 pos (by omega) (by unfold SIZE_MOD; omega)
      rw [e1, size_sub_eq _ 1 (by omega) (by unfold SIZE_MOD; omega)]
      omega
    unfold build_request_loop
    rw [hget]
    simp only [hrem]
    rw [hdrop, List.map_cons]
    unfold fitting_tokens
    unfold RPC_MAX_PACKET_SIZE at hpos ⊢
    by_cases h1 : 4096 - 1 - pos ≤ 1
    · rw [if_pos h1, if_neg (by omega)]
      simp [frame, ← hbuf]
    · rw [if_neg h1]
      have hs1 : (snprintf buf pos (4096 - 1 - pos) (cstr args[i] ++ [0])).1 =
          buf ++ (cstr args[i] ++ [0]).take (4096 - 1 - pos - 1) := by
        unfold snprintf
        simp only
        rw [if_neg (by omega), ← hbuf, List.take_length]
      have hs2 : (snprintf buf pos (4096 - 1 - pos) (cstr args[i] ++ [0])).2 =
          if (cstr args[i]).length + 1 > INT_MAX then -1
          else (((cstr args[i]).length + 1 : Nat) : Int) := by
        unfold snprintf
        simp
      by_cases hfit : pos + (cstr args[i]).length + 1 ≤ 4096 - 2
      · have hsmall : ¬ (cstr args[i]).length + 1 > INT_MAX := by unfold INT_MAX; omega
        rw [if_neg hsmall] at hs2
        have hcond : ¬ ((snprintf buf pos (4096 - 1 - pos) (cstr args[i] ++ [0])).2 < 0 ∨
            (snprintf buf pos (4096 - 1 - pos) (cstr args[i] ++ [0])).2.toNat ≥
              4096 - 1 - pos) := by
          rw [hs2]
          simp only [Int.toNat_ofNat]
          omega
        rw [if_neg hcond, if_pos hfit, hs1, hs2]
        simp only [Int.toNat_ofNat]
        have htake : (cstr args[i] ++ [0]).take (4096 - 1 - pos - 1) = cstr args[i] ++ [0] := by
          apply List.take_of_length_le
          simp; omega
        rw [htake]
        have := ih (i + 1) (pos + ((cstr args[i]).length + 1)) (buf ++ (cstr args[i] ++ [0]))
          (by omega) (by simp [hbuf]) (by unfold RPC_MAX_PACKET_SIZE; omega)
        rw [this, frame_cons]
        have e : pos + ((cstr args[i]).length + 1) = pos + (cstr args[i]).length + 1 := by omega
        rw [e]
        simp
      · have hcond : (snprintf buf pos (4096 - 1 - pos) (cstr args[i] ++ [0])).2 < 0 ∨
            (snprintf buf pos (4096 - 1 - pos) (cstr args[i] ++ [0])).2.toNat ≥
              4096 - 1 - pos := by
          rw [hs2]
          by_cases hbig : (cstr args[i]).length + 1 > INT_MAX
          · left; rw [if_pos hbig]; decide
          · right; rw [if_neg hbig]; simp only [Int.toNat_ofNat]; omega
        rw [if_pos hcond, if_neg hfit, hs1]
        simp [frame, ← hbuf]

theorem take_set_same (l : List Nat) (n : Nat) (a : Nat) :
    (l.set n a).take n = l.take n := by
  induction l generalizing n with
  | nil => simp
  | cons c r ih =>
    cases n with
    | zero => simp
    | succ n => simp [ih n]

/-- The encoding loop never moves `pos` past `RPC_MAX_PACKET_SIZE - 2`. -/
theorem build_request_loop_pos_le (argv : Argv) :
    ∀ (n i pos : Nat) (buf : List Nat), pos ≤ RPC_MAX_PACKET_SIZE - 2 →
      (build_request_loop argv n i pos buf).1 ≤ RPC_MAX_PACKET_SIZE - 2 := by
  intro n
  induction n with
  | zero => intro i pos buf h; exact h
  | succ n ih =>
    intro i pos buf hpos
    have hrem : size_sub (size_sub RPC_MAX_PACKET_SIZE pos) 1 = RPC_MAX_PACKET_SIZE - 1 - pos := by
      unfold RPC_MAX_PACKET_SIZE at hpos ⊢
      have e1 : size_sub 4096 pos = 4096 - pos :=
        size_sub_eq 4096 pos (by omega) (by unfold SIZE_MOD; omega)
      rw [e1, size_sub_eq _ 1 (by omega) (by unfold SIZE_MOD; omega)]
      omega
    unfold build_request_loop
    cases argv.getD i none with
    | none => exact ih _ _ _ hpos
    | some a =>
      simp only [hrem]
      split
      · exact hpos
      · split
        · exact hpos
        · rename_i hc
          apply ih
          unfold RPC_MAX_PACKET_SIZE at hc hpos ⊢
          omega

theorem build_request_eq (args : List CharPtr) :
    build_request (args.length : Int) (args.map some) =
      frame (fitting_tokens 0 (args.map cstr)) := by
  unfold build_request
  simp only [Int.toNat_ofNat]
  have hpos := build_request_loop_pos_le (args.map some) args.length 0 0 [] (by decide)
  have := build_request_loop_spec args args.length 0 0 [] (by omega) rfl (by decide)
  rw [if_pos (by unfold RPC_MAX_PACKET_SIZE at hpos ⊢; omega), take_set_same]
  simpa using this

theorem map_cstr_of_not_mem (args : List (List Nat)) (h : ∀ a ∈ args, 0 ∉ a) :
    args.map cstr = args := by
  induction args with
  | nil => rfl
  | cons a rest ih =>
    rw [List.map_cons, cstr_of_not_mem a (h a (by simp)),
      ih (fun b hb => h b (by simp [hb]))]

/-- Past its parameter checks and with a socket at hand, `rpc_client_call`
passes the encoded request to `sendto`, whatever the encoding loop left out. -/
theorem rpc_client_call_sends (server_ip : CharPtr) (port : Int) (argc : Int) (argv : Argv)
    (response_size : Nat) (env : client_env) (hargc : 1 ≤ argc)
    (hresp : 0 < response_size) (h1 : 0 ≤ env.socket) (h2 : 0 ≤ env.setsockopt)
    (h3 : 0 < env.inet_pton) :
    (rpc_client_call (some server_ip) port argc (some argv) true response_size env).sent =
        some (build_request argc argv) ∧
      (0 ≤ env.sendto → env.recvfrom.isSome = true →
        (rpc_client_call (some server_ip) port argc (some argv) true response_size env).ret =
          RPC_SUCCESS) := by
  unfold rpc_client_call
  have hc : ¬ (argc < 1 ∨ (some server_ip).isNone = true ∨ true = false ∨ response_size = 0) := by
    simp; omega
  simp only [if_neg hc, if_neg (not_lt.2 h1), if_neg (not_lt.2 h2), if_neg (not_le.2 h3)]
  by_cases h4 : env.sendto < 0
  · rw [if_pos h4]
    exact ⟨rfl, fun h => absurd h4 (not_lt.2 h)⟩
  · rw [if_neg h4]
    cases hr : env.recvfrom with
    | none => exact ⟨rfl, fun _ h => by simp at h⟩
    | some reply => exact ⟨rfl, fun _ _ => rfl⟩

theorem frame_single_length (n : Nat) : (frame [List.replicate n 97]).length = n + 1 := by
  simp [frame]

/-- A single token that does not fit is left out: the request is empty. -/
theorem build_request_single_too_long (n : Nat) (h : RPC_MAX_PACKET_SIZE - 2 < n + 1) :
    build_request 1 [some (List.replicate n 97)] = [] := by
  have h1 := build_request_eq [List.replicate n 97]
  have hc : cstr (List.replicate n 97) = List.replicate n 97 :=
    cstr_of_not_mem _ (by simp [List.mem_replicate])
  simp only [List.length_singleton, List.map_cons, List.map_nil, hc] at h1
  have hf : fitting_tokens 0 [List.replicate n 97] = [] := by
    unfold fitting_tokens
    rw [if_neg (by simp; omega)]
  rw [hf] at h1
  exact h1

/-! ## C1: round trip of the request codec -/

/-- C1, as the code has it: for every argument list of 1 to `MAX_ARGS - 1`
tokens, each non-empty and free of the `0` byte, whose framed size is at most
`RPC_MAX_PACKET_SIZE - 2` bytes, the request that `rpc_client_call` builds is
the framed list, and `parse_args` with `argv_size = MAX_ARGS` decodes it with
success into exactly the original tokens, in order, followed by NULL. -/
theorem request_round_trip (args : List (List Nat)) (argc : Int) (argv : Argv)
    (h1 : 1 ≤ args.length) (h9 : args.length ≤ MAX_ARGS - 1)
    (htok : ∀ a ∈ args, a ≠ [] ∧ 0 ∉ a)
    (hsize : (frame args).length ≤ RPC_MAX_PACKET_SIZE - 2)
    (hargv : argv.length = MAX_ARGS) :
    build_request (args.length : Int) (args.map some) = frame args ∧
    ∃ r, parse_args (build_request (args.length : Int) (args.map some))
          (build_request (args.length : Int) (args.map some)).length argc argv MAX_ARGS =
          some r ∧
      r.ret = 0 ∧ r.argc = (args.length : Int) ∧
      argv_strings args.length r.argv = args.map some ∧
      r.argv[args.length]? = some none := by
  have henc : build_request (args.length : Int) (args.map some) = frame args := by
    rw [build_request_eq, map_cstr_of_not_mem args (fun a ha => (htok a ha).2),
      fitting_tokens_all args 0 (by omega)]
  have htk : tokens (frame args) = args := tokens_frame args htok
  have hne : frame args ≠ [] := by
    intro h
    rw [h, tokens_nil] at htk
    rw [← htk] at h1
    simp at h1
  refine ⟨henc, ?_⟩
  rw [henc]
  obtain ⟨r, hr, _, _, hok⟩ :=
    parse_args_spec (frame args) argc argv MAX_ARGS hne (by decide) (by decide) hargv
  rw [htk] at hok
  obtain ⟨e1, e2, e3, e4⟩ := hok h9 (by unfold MAX_ARGS at h9; unfold INT_MAX; omega)
  exact ⟨r, hr, e1, e2, e3, e4⟩

theorem request_round_trip_witness :
    build_request ([[97, 100, 100], [50], [51]].length : Int)
        ([[97, 100, 100], [50], [51]].map some) = frame [[97, 100, 100], [50], [51]] ∧
    ∃ r, parse_args (build_request ([[97, 100, 100], [50], [51]].length : Int)
            ([[97, 100, 100], [50], [51]].map some))
          (build_request ([[97, 100, 100], [50], [51]].length : Int)
            ([[97, 100, 100], [50], [51]].map some)).length 0
          (List.replicate 10 none) MAX_ARGS = some r ∧
      r.ret = 0 ∧ r.argc = ([[97, 100, 100], [50], [51]].length : Int) ∧
      argv_strings [[97, 100, 100], [50], [51]].length r.argv =
        [[97, 100, 100], [50], [51]].map some ∧
      r.argv[[[97, 100, 100], [50], [51]].length]? = some none :=
  request_round_trip [[97, 100, 100], [50], [51]] 0 (List.replicate 10 none) (by decide)
    (by decide) (by decide) (by decide) (by decide)

/-- C1 fails as stated, in four ways.  Ten one-byte tokens (`MAX_ARGS` tokens)
are rejected with `EOVERFLOW`.  The list `a`, empty token, `b` decodes to two
tokens.  A single token of 4094 bytes has framed size 4095, under the packet
bound, and is left out of the request, which is empty.  The empty request (also
that of the empty list) is rejected with `EINVAL`. -/
theorem request_round_trip_counterexample :
    (parse_args
        (build_request 10 ([[97], [98], [99], [100], [101], [102], [103], [104], [105],
          [106]].map some))
        (build_request 10 ([[97], [98], [99], [100], [101], [102], [103], [104], [105],
          [106]].map some)).length 0 (List.replicate 10 none) MAX_ARGS).map
      (fun r => r.ret) = some EOVERFLOW ∧
    (parse_args (build_request 3 [some [97], some [], some [98]])
        (build_request 3 [some [97], some [], some [98]]).length 0
        (List.replicate 10 none) MAX_ARGS).map (fun r => (r.ret, r.argc)) = some (0, 2) ∧
    ((frame [List.replicate 4094 97]).length < RPC_MAX_PACKET_SIZE ∧
      build_request 1 [some (List.replicate 4094 97)] = []) ∧
    (build_request 0 [] = [] ∧
      (parse_args [] 0 0 (List.replicate 10 none) MAX_ARGS).map (fun r => r.ret) =
        some EINVAL) := by
  exact ⟨by decide, by decide,
    ⟨by rw [frame_single_length]; decide, build_request_single_too_long 4094 (by decide)⟩,
    by decide, by decide⟩

/-! ## C3: encoding a list that is too large -/

/-- C3, as the code has it: when the framed encoding of the list exceeds the
maximum packet size, the encoding step of `rpc_client_call` does not fail.  It
stops at the first token that does not fit: the datagram passed to `sendto` is
the framed encoding of the `k` tokens in front of it, a proper part of the
list, of at most `RPC_MAX_PACKET_SIZE - 2` bytes; and when `sendto` and
`recvfrom` succeed the call returns `RPC_SUCCESS`. -/
theorem encode_overflow_sends_part (args : List (List Nat)) (server_ip : CharPtr)
    (port : Int) (response_size : Nat) (env : client_env) (htok : ∀ a ∈ args, 0 ∉ a)
    (hbig : RPC_MAX_PACKET_SIZE < (frame args).length) (hresp : 0 < response_size)
    (h1 : 0 ≤ env.socket) (h2 : 0 ≤ env.setsockopt) (h3 : 0 < env.inet_pton) :
    ∃ k, k < args.length ∧
      (rpc_client_call (some server_ip) port (args.length : Int) (some (args.map some)) true
        response_size env).sent = some (frame (args.take k)) ∧
      (frame (args.take k)).length ≤ RPC_MAX_PACKET_SIZE - 2 ∧
      RPC_MAX_PACKET_SIZE - 2 < (frame (args.take (k + 1))).length ∧
      (0 ≤ env.sendto → env.recvfrom.isSome = true →
        (rpc_client_call (some server_ip) port (args.length : Int) (some (args.map some)) true
          response_size env).ret = RPC_SUCCESS) := by
  have hlen : 1 ≤ args.length := by
    cases args with
    | nil => simp [frame] at hbig
    | cons a r => simp
  obtain ⟨hs, hr⟩ := rpc_client_call_sends server_ip port (args.length : Int) (args.map some)
    response_size env (by omega) hresp h1 h2 h3
  obtain ⟨k, hk, e, hle, hgt⟩ := fitting_tokens_take args 0
  simp only [Nat.zero_add] at hle hgt
  have hmax : max 0 (RPC_MAX_PACKET_SIZE - 2) = RPC_MAX_PACKET_SIZE - 2 := by simp
  rw [hmax] at hle
  have hklt : k < args.length := by
    rcases Nat.lt_or_ge k args.length with h | h
    · exact h
    · rw [List.take_of_length_le h] at hle
      omega
  refine ⟨k, hklt, ?_, hle, hgt hklt, hr⟩
  rw [hs, build_request_eq, map_cstr_of_not_mem args htok, e]

theorem two_tokens_zero_free (n : Nat) : ∀ a ∈ [[97], List.replicate n 98], 0 ∉ a := by
  intro a ha
  simp only [List.mem_cons, List.mem_singleton, List.not_mem_nil, or_false] at ha
  rcases ha with rfl | rfl
  · decide
  · simp [List.mem_replicate]

theorem frame_two_length (n : Nat) : (frame [[97], List.replicate n 98]).length = n + 3 := by
  simp [frame]

theorem build_request_second_too_long (n : Nat) (h : RPC_MAX_PACKET_SIZE - 2 < n + 3) :
    build_request 2 [some [97], some (List.replicate n 98)] = [97, 0] := by
  have h1 := build_request_eq [[97], List.replicate n 98]
  rw [map_cstr_of_not_mem _ (two_tokens_zero_free n)] at h1
  have hf : fitting_tokens 0 [[97], List.replicate n 98] = [[97]] := by
    unfold fitting_tokens
    rw [if_pos (by decide)]
    unfold fitting_tokens
    rw [if_neg (by simp; omega)]
  rw [hf] at h1
  exact h1

theorem encode_overflow_sends_part_witness :
    ∃ k, k < [[97], List.replicate 4096 98].length ∧
      (rpc_client_call (some [49]) 8888 ([[97], List.replicate 4096 98].length : Int)
        (some ([[97], List.replicate 4096 98].map some)) true 4096
        ⟨3, 0, 1, 2, some [48]⟩).sent = some (frame ([[97], List.replicate 4096 98].take k)) ∧
      (frame ([[97], List.replicate 4096 98].take k)).length ≤ RPC_MAX_PACKET_SIZE - 2 ∧
      RPC_MAX_PACKET_SIZE - 2 < (frame ([[97], List.replicate 4096 98].take (k + 1))).length ∧
      (0 ≤ (⟨3, 0, 1, 2, some [48]⟩ : client_env).sendto →
        (⟨3, 0, 1, 2, some [48]⟩ : client_env).recvfrom.isSome = true →
        (rpc_client_call (some [49]) 8888 ([[97], List.replicate 4096 98].length : Int)
          (some ([[97], List.replicate 4096 98].map some)) true 4096
          ⟨3, 0, 1, 2, some [48]⟩).ret = RPC_SUCCESS) :=
  encode_overflow_sends_part [[97], List.replicate 4096 98] [49] 8888 4096
    ⟨3, 0, 1, 2, some [48]⟩ (two_tokens_zero_free 4096)
    (by rw [frame_two_length]; decide) (by decide) (by decide) (by decide) (by decide)

/-- C3 fails as stated: the list `a`, 4096 times `b` has a framed encoding of
4099 bytes, over the maximum packet size; with every socket call succeeding,
`rpc_client_call` returns `RPC_SUCCESS` and the datagram it sent holds the
first token only. -/
theorem encode_overflow_counterexample :
    RPC_MAX_PACKET_SIZE < (frame [[97], List.replicate 4096 98]).length ∧
    (rpc_client_call (some [49]) 8888 2 (some [some [97], some (List.replicate 4096 98)]) true
      4096 ⟨3, 0, 1, 2, some [48]⟩).ret = RPC_SUCCESS ∧
    (rpc_client_call (some [49]) 8888 2 (some [some [97], some (List.replicate 4096 98)]) true
      4096 ⟨3, 0, 1, 2, some [48]⟩).sent = some [97, 0] := by
  obtain ⟨hs, hr⟩ := rpc_client_call_sends [49] 8888 2 [some [97], some (List.replicate 4096 98)]
    4096 ⟨3, 0, 1, 2, some [48]⟩ (by decide) (by decide) (by decide) (by decide) (by decide)
  refine ⟨by rw [frame_two_length]; decide, hr (by decide) (by decide), ?_⟩
  rw [hs, build_request_second_too_long 4096 (by decide)]

/-! ## C5: registration beyond capacity -/

/-- C5: with `function_count = MAX_FUNCTIONS`, `register_str_func` returns
`RPC_ERROR` for every name and callback and leaves the context, hence the count
and every stored entry, as it was. -/
theorem register_str_func_full (ctx : rpc_context_t) (name : Option CharPtr)
    (func : Option rpc_string_cb) (h : ctx.function_count = MAX_FUNCTIONS) :
    register_str_func name func ctx = (ctx, RPC_ERROR) := by
  cases name <;> cases func <;> simp [register_str_func, h]

theorem register_str_func_full_witness :
    register_str_func (some [97]) (some rpc_string_cb.stop_func)
        (register_all (List.replicate 10 ([102], rpc_string_cb.echo_func)) g_ctx_zero).1 =
      ((register_all (List.replicate 10 ([102], rpc_string_cb.echo_func)) g_ctx_zero).1,
        RPC_ERROR) :=
  register_str_func_full
    (register_all (List.replicate 10 ([102], rpc_string_cb.echo_func)) g_ctx_zero).1
    (some [97]) (some rpc_string_cb.stop_func) (by decide)

/-! ## C6: dispatch to the earliest match -/

theorem take_strlen (n : CharPtr) : n.take (strlen n) = cstr n := by
  unfold strlen
  induction n with
  | nil => rfl
  | cons c r ih =>
    by_cases hc : c = 0
    · simp [cstr, hc]
    · simp [cstr, hc, ih]

theorem cstr_idem (n : CharPtr) : cstr (cstr n) = cstr n :=
  cstr_of_not_mem _ (zero_not_mem_cstr n)

theorem set_take_succ {α : Type} (l : List α) (k : Nat) (e : α) (h : k < l.length) :
    (l.set k e).take (k + 1) = l.take k ++ [e] := by
  induction l generalizing k with
  | nil => simp at h
  | cons a r ih =>
    cases k with
    | zero => simp
    | succ k =>
      simp only [List.length_cons] at h
      simp [ih k (by omega)]

/-- The entry that `register_str_func` stores for a name and a callback. -/
theorem register_str_func_ok (ctx : rpc_context_t) (name : CharPtr) (func : rpc_string_cb)
    (h : (register_str_func (some name) (some func) ctx).2 = RPC_SUCCESS) :
    ctx.function_count < MAX_FUNCTIONS ∧
    (register_str_func (some name) (some func) ctx).1 =
      { ctx with
        functions := ctx.functions.set ctx.function_count
          ⟨name.take (if strlen name ≥ NAME_SIZE then NAME_SIZE - 1 else strlen name),
            some func⟩
        function_count := ctx.function_count + 1 } := by
  unfold register_str_func at h ⊢
  by_cases hfull : ctx.function_count ≥ MAX_FUNCTIONS
  · simp only [if_pos hfull] at h
    exact absurd h (by decide)
  · simp only [if_neg hfull]
    exact ⟨by omega, trivial⟩

theorem register_all_entries (regs : List (CharPtr × rpc_string_cb)) :
    ∀ (ctx ctx1 : rpc_context_t), ctx.functions.length = MAX_FUNCTIONS →
      register_all regs ctx = (ctx1, true) →
      ctx1.functions.length = MAX_FUNCTIONS ∧
      ctx1.functions.take ctx1.function_count =
        ctx.functions.take ctx.function_count ++
          regs.map (fun r =>
            (⟨r.1.take (if strlen r.1 ≥ NAME_SIZE then NAME_SIZE - 1 else strlen r.1),
              some r.2⟩ : rpc_func_t)) := by
  induction regs with
  | nil =>
    intro ctx ctx1 hlen h
    simp only [register_all, Prod.mk.injEq, and_true] at h
    subst h
    simp [hlen]
  | cons r rest ih =>
    intro ctx ctx1 hlen h
    unfold register_all at h
    by_cases hok : (register_str_func (some r.1) (some r.2) ctx).2 = RPC_SUCCESS
    · rw [if_pos hok] at h
      obtain ⟨hcount, hctx⟩ := register_str_func_ok ctx r.1 r.2 hok
      rw [hctx] at h
      obtain ⟨h1, h2⟩ := ih _ ctx1 (by simp [hlen]) h
      refine ⟨h1, ?_⟩
      rw [h2]
      simp only
      rw [set_take_succ _ _ _ (by rw [hlen]; exact hcount)]
      simp
    · rw [if_neg hok] at h
      simp at h

theorem call_function_scan_first (name : CharPtr) (argc : Int) (argv : Option Argv)
    (w : World) (regs : List (CharPtr × rpc_string_cb)) :
    (∀ r ∈ regs, strlen r.1 ≤ NAME_SIZE - 1) →
    ∀ (i : Nat) (hi : i < regs.length), cstr regs[i].1 = cstr name →
      (∀ j (hj : j < i), cstr (regs[j]).1 ≠ cstr name) →
      call_function_scan name argc argv w
          (regs.map (fun r =>
            (⟨r.1.take (if strlen r.1 ≥ NAME_SIZE then NAME_SIZE - 1 else strlen r.1),
              some r.2⟩ : rpc_func_t))) =
        some (run_cb regs[i].2 argc argv
          { w with calls := w.calls ++ [(regs[i].2, argc, argv)] }) := by
  induction regs with
  | nil => intro _ i hi; simp at hi
  | cons r rest ih =>
    intro hlen i hi heq hfirst
    have hr : strlen r.1 ≤ NAME_SIZE - 1 := hlen r (by simp)
    have hname : cstr (r.1.take (if strlen r.1 ≥ NAME_SIZE then NAME_SIZE - 1 else strlen r.1)) =
        cstr r.1 := by
      rw [if_neg (by unfold NAME_SIZE at *; omega), take_strlen, cstr_idem]
    rw [List.map_cons]
    unfold call_function_scan
    simp only [hname]
    cases i with
    | zero =>
      simp only [List.getElem_cons_zero] at heq ⊢
      rw [if_pos heq.symm]
    | succ i =>
      have h0 := hfirst 0 (by omega)
      simp only [List.getElem_cons_zero] at h0
      rw [if_neg (fun e => h0 e.symm)]
      simp only [List.getElem_cons_succ] at heq ⊢
      simp only [List.length_cons] at hi
      exact ih (fun q hq => hlen q (by simp [hq])) i (by omega) heq
        (fun j hj => by
          have := hfirst (j + 1) (by omega)
          simpa using this)

/-- C6: successful registrations of `regs`, from a context with an empty
registry, leave exactly the entries of `regs` in `functions[0..function_count)`,
each name cut to its length; and in every state whose registry holds these
entries, of names of at most 49 bytes, whatever the running flag, the socket
and the buffers are, a call of a name that compares equal to a registered one
returns exactly what the callback of the earliest registration with that name
returns for `(argc, argv)`; that callback is the only one invoked. -/
theorem call_function_earliest (regs : List (CharPtr × rpc_string_cb)) (w : World)
    (name : CharPtr) (argc : Int) (argv : Option Argv)
    (hreg : w.g_ctx.functions.take w.g_ctx.function_count =
      regs.map (fun r =>
        (⟨r.1.take (if strlen r.1 ≥ NAME_SIZE then NAME_SIZE - 1 else strlen r.1),
          some r.2⟩ : rpc_func_t)))
    (hlen : ∀ r ∈ regs, strlen r.1 ≤ NAME_SIZE - 1)
    (hname : ∃ r ∈ regs, cstr r.1 = cstr name) :
    (∀ ctx0 ctx1 : rpc_context_t, ctx0.functions.length = MAX_FUNCTIONS →
      ctx0.function_count = 0 → register_all regs ctx0 = (ctx1, true) →
      ctx1.functions.take ctx1.function_count =
        regs.map (fun r =>
          (⟨r.1.take (if strlen r.1 ≥ NAME_SIZE then NAME_SIZE - 1 else strlen r.1),
            some r.2⟩ : rpc_func_t))) ∧
    ∃ (i : Nat) (hi : i < regs.length), cstr regs[i].1 = cstr name ∧
      (∀ j (hj : j < i), cstr (regs[j]).1 ≠ cstr name) ∧
      call_function (some name) argc argv w =
        run_cb regs[i].2 argc argv { w with calls := w.calls ++ [(regs[i].2, argc, argv)] } := by
  refine ⟨?_, ?_⟩
  · intro ctx0 ctx1 harr hzero h
    obtain ⟨_, htake⟩ := register_all_entries regs ctx0 ctx1 harr h
    rw [htake, hzero, List.take_zero, List.nil_append]
  have hex : ∃ i, ∃ hi : i < regs.length, cstr regs[i].1 = cstr name := by
    obtain ⟨r, hr, e⟩ := hname
    obtain ⟨i, hi, rfl⟩ := List.getElem_of_mem hr
    exact ⟨i, hi, e⟩
  classical
  let P : Nat → Prop := fun i => ∃ hi : i < regs.length, cstr regs[i].1 = cstr name
  have hP : ∃ i, P i := hex
  obtain ⟨hi, heq⟩ := Nat.find_spec hP
  have hmin : ∀ j (hj : j < Nat.find hP), cstr (regs[j]).1 ≠ cstr name := by
    intro j hj e
    exact Nat.find_min hP hj ⟨by omega, e⟩
  refine ⟨Nat.find hP, hi, heq, hmin, ?_⟩
  unfold call_function
  simp only
  rw [hreg, call_function_scan_first name argc argv w regs hlen (Nat.find hP) hi heq hmin]

theorem call_function_earliest_witness :
    (∀ ctx0 ctx1 : rpc_context_t, ctx0.functions.length = MAX_FUNCTIONS →
      ctx0.function_count = 0 → register_all sample_regs ctx0 = (ctx1, true) →
      ctx1.functions.take ctx1.function_count =
        sample_regs.map (fun r =>
          (⟨r.1.take (if strlen r.1 ≥ NAME_SIZE then NAME_SIZE - 1 else strlen r.1),
            some r.2⟩ : rpc_func_t))) ∧
    ∃ (i : Nat) (hi : i < sample_regs.length), cstr sample_regs[i].1 = cstr (bytes "stop") ∧
      (∀ j (hj : j < i), cstr (sample_regs[j]).1 ≠ cstr (bytes "stop")) ∧
      call_function (some (bytes "stop")) 0 (some [])
          (rpc_init ⟨3, 0, 0, 7⟩
            ⟨(register_all sample_regs g_ctx_zero).1, [], [], [], []⟩).1 =
        run_cb sample_regs[i].2 0 (some [])
          { (rpc_init ⟨3, 0, 0, 7⟩
              ⟨(register_all sample_regs g_ctx_zero).1, [], [], [], []⟩).1 with
            calls := (rpc_init ⟨3, 0, 0, 7⟩
              ⟨(register_all sample_regs g_ctx_zero).1, [], [], [], []⟩).1.calls ++
              [(sample_regs[i].2, 0, some [])] } :=
  call_function_earliest sample_regs
    (rpc_init ⟨3, 0, 0, 7⟩ ⟨(register_all sample_regs g_ctx_zero).1, [], [], [], []⟩).1
    (bytes "stop") 0 (some []) rfl (by decide)
    ⟨(bytes "stop", rpc_string_cb.stop_func), by simp [sample_regs], rfl⟩

/-! ## The fallback text -/

theorem fmt_d_natCast (n : Nat) : fmt_d (n : Int) = fmt_nat n := by
  unfold fmt_d
  rw [if_neg (by omega), Int.toNat_ofNat]

theorem echo_rendering_from_cons (i : Nat) (a : CharPtr) (rest : List (List Nat)) :
    echo_rendering_from i (cstr a :: rest) =
      echo_piece i a ++ echo_rendering_from (i + 1) rest := by
  simp [echo_rendering_from, echo_piece, fmt_d_natCast]

theorem echo_rendering_from_append (l1 l2 : List (List Nat)) :
    ∀ i, echo_rendering_from i (l1 ++ l2) =
      echo_rendering_from i l1 ++ echo_rendering_from (i + l1.length) l2 := by
  induction l1 with
  | nil => intro i; simp [echo_rendering_from]
  | cons a rest ih =>
    intro i
    have e : i + (rest.length + 1) = i + 1 + rest.length := by omega
    rw [List.cons_append]
    simp only [echo_rendering_from]
    rw [ih (i + 1), List.length_cons, e]
    simp only [List.append_assoc]

theorem take_append_cut (buf piece rest : List Nat) (m : Nat) (hbuf : buf.length ≤ m)
    (hp : m - buf.length ≤ piece.length) :
    (buf ++ (piece ++ rest)).take m = buf ++ piece.take (m - buf.length) := by
  rw [List.take_append_eq_append_take, List.take_of_length_le hbuf,
    List.take_append_of_le_length hp]

/-- The loop of `echo_func`, from a state in which `pos` is the length of the
buffer: the buffer at loop exit is the complete text cut to the size of the
array less the terminator. -/
theorem echo_loop_spec (args : List CharPtr) :
    ∀ (n i pos : Nat) (buf : List Nat), i + n = args.length → buf.length = pos →
      pos ≤ RPC_BUFFER_SIZE - 1 →
      echo_loop (args.map some) n i pos buf =
        (buf ++ echo_rendering_from i ((args.drop i).map cstr)).take (RPC_BUFFER_SIZE - 1) := by
  intro n
  induction n with
  | zero =>
    intro i pos buf hi hbuf hpos
    have : args.drop i = [] := List.drop_eq_nil_of_le (by omega)
    rw [this]
    simp only [echo_loop, List.map_nil, echo_rendering_from, List.append_nil]
    rw [List.take_of_length_le (by omega)]
  | succ n ih =>
    intro i pos buf hi hbuf hpos
    have hlt : i < args.length := by omega
    have hdrop : args.drop i = args[i] :: args.drop (i + 1) := List.drop_eq_getElem_cons hlt
    have hget : (args.map some).getD i none = some args[i] := by
      simp [List.getD, List.getElem?_eq_getElem hlt]
    have hrem : size_sub RPC_BUFFER_SIZE pos = RPC_BUFFER_SIZE - pos := by
      unfold RPC_BUFFER_SIZE at hpos ⊢
      exact size_sub_eq 2048 pos (by omega) (by unfold SIZE_MOD; omega)
    unfold echo_loop
    rw [hget]
    simp only [hrem]
    rw [hdrop, List.map_cons, echo_rendering_from_cons]
    unfold RPC_BUFFER_SIZE at hpos ⊢
    by_cases h1 : 2048 - pos ≤ 1
    · rw [if_pos h1]
      rw [List.take_append_eq_append_take, List.take_of_length_le (by omega)]
      have : 2048 - 1 - buf.length = 0 := by omega
      rw [this]
      simp
    · rw [if_neg h1]
      have hs1 : (snprintf buf pos (2048 - pos) (echo_piece i args[i])).1 =
          buf ++ (echo_piece i args[i]).take (2048 - 1 - buf.length) := by
        unfold snprintf
        simp only
        rw [if_neg (by omega), ← hbuf, List.take_length]
        have : 2048 - buf.length - 1 = 2048 - 1 - buf.length := by omega
        rw [this]
      have hs2 : (snprintf buf pos (2048 - pos) (echo_piece i args[i])).2 =
          if (echo_piece i args[i]).length > INT_MAX then -1
          else ((echo_piece i args[i]).length : Int) := by
        unfold snprintf
        simp
      by_cases hfit : (echo_piece i args[i]).length < 2048 - pos
      · have hsmall : ¬ (echo_piece i args[i]).length > INT_MAX := by unfold INT_MAX; omega
        rw [if_neg hsmall] at hs2
        have hcond : ¬ ((snprintf buf pos (2048 - pos) (echo_piece i args[i])).2 < 0 ∨
            (snprintf buf pos (2048 - pos) (echo_piece i args[i])).2.toNat ≥ 2048 - pos) := by
          rw [hs2]
          simp only [Int.toNat_ofNat]
          omega
        rw [if_neg hcond, hs1, hs2]
        simp only [Int.toNat_ofNat]
        rw [List.take_of_length_le (by omega)]
        rw [ih (i + 1) (pos + (echo_piece i args[i]).length) (buf ++ echo_piece i args[i])
          (by omega) (by simp [hbuf]) (by unfold RPC_BUFFER_SIZE; omega)]
        rw [List.append_assoc]
        rfl
      · have hcond : (snprintf buf pos (2048 - pos) (echo_piece i args[i])).2 < 0 ∨
            (snprintf buf pos (2048 - pos) (echo_piece i args[i])).2.toNat ≥ 2048 - pos := by
          rw [hs2]
          by_cases hbig : (echo_piece i args[i]).length > INT_MAX
          · left; rw [if_pos hbig]; decide
          · right; rw [if_neg hbig]; simp only [Int.toNat_ofNat]; omega
        rw [if_pos hcond, hs1]
        exact (take_append_cut buf _ _ (2048 - 1) (by omega) (by omega)).symm

/-- The result of `echo_func` on `n` non-null arguments, when the text
`argc=n` fits the buffer: the complete text cut to the size of the array less
the terminator. -/
theorem echo_func_result (args : List CharPtr) (w : World)
    (hhead : (bytes "argc=" ++ fmt_nat args.length).length < RPC_BUFFER_SIZE) :
    (echo_func (args.length : Int) (some (args.map some)) w).2 =
      some ((echo_rendering (args.map cstr)).take (RPC_BUFFER_SIZE - 1)) := by
  have hrem : size_sub RPC_BUFFER_SIZE 0 = RPC_BUFFER_SIZE := by decide
  have hlen : (bytes "argc=" ++ fmt_nat args.length).length ≤ INT_MAX := by
    unfold RPC_BUFFER_SIZE at hhead; unfold INT_MAX; omega
  unfold echo_func
  simp only [hrem, fmt_d_natCast, Int.toNat_ofNat]
  have hs1 : (snprintf w.g_ctx.echo_buffer 0 RPC_BUFFER_SIZE
      (bytes "argc=" ++ fmt_nat args.length)).1 = bytes "argc=" ++ fmt_nat args.length := by
    unfold snprintf
    simp only
    rw [if_neg (by decide), List.take_zero, List.nil_append,
      List.take_of_length_le (by omega)]
  have hs2 : (snprintf w.g_ctx.echo_buffer 0 RPC_BUFFER_SIZE
      (bytes "argc=" ++ fmt_nat args.length)).2 =
      ((bytes "argc=" ++ fmt_nat args.length).length : Int) := by
    unfold snprintf
    simp only
    rw [if_neg (by omega)]
  rw [if_neg (by decide), hs1, hs2]
  simp only [Int.toNat_ofNat]
  rw [if_neg (by omega)]
  simp only
  rw [echo_loop_spec args args.length 0 _ _ (by omega) rfl (by omega)]
  simp [echo_rendering]

theorem call_function_scan_none (name : CharPtr) (argc : Int) (argv : Option Argv)
    (w : World) (entries : List rpc_func_t)
    (h : ∀ e ∈ entries, cstr name ≠ cstr e.name) :
    call_function_scan name argc argv w entries = none := by
  induction entries with
  | nil => rfl
  | cons e rest ih =>
    unfold call_function_scan
    rw [if_neg (h e (by simp))]
    exact ih (fun q hq => h q (by simp [hq]))

theorem take_keeps_start {l1 l2 : List Nat} (h : l1 <+: l2) (n : Nat)
    (hl : l1.length ≤ n) : l1 <+: l2.take n := by
  obtain ⟨t, rfl⟩ := h
  rw [List.take_append_eq_append_take, List.take_of_length_le hl]
  exact List.prefix_append _ _

theorem echo_head_le (l : List (List Nat)) :
    (bytes "argc=" ++ fmt_nat l.length).length ≤ (echo_rendering l).length := by
  unfold echo_rendering
  rw [List.length_append (bytes "argc=" ++ fmt_nat l.length)]
  omega

/-! ## C7: the fallback result -/

/-- C7: for a non-null name that compares equal to no registry entry and `n`
non-null arguments whose text fits the result buffer, `call_function` returns
exactly `argc=n` followed, for `i = 0 .. n-1` in order, by ` argv[i]=` and the
`i`-th argument between quotes; for the arguments `x`, `y` the result is
`argc=2 argv[0]='x' argv[1]='y'`. -/
theorem call_function_fallback (w : World) (name : CharPtr) (args : List CharPtr)
    (hno : ∀ e ∈ w.g_ctx.functions.take w.g_ctx.function_count, cstr name ≠ cstr e.name)
    (hfit : (echo_rendering (args.map cstr)).length < RPC_BUFFER_SIZE) :
    (call_function (some name) (args.length : Int) (some (args.map some)) w).2 =
        some (echo_rendering (args.map cstr)) ∧
    (call_function (some (bytes "echo")) 2 (some [some (bytes "x"), some (bytes "y")])
        World.start).2 = some (bytes "argc=2 argv[0]=\x27x\x27 argv[1]=\x27y\x27") := by
  refine ⟨?_, by decide⟩
  have hhead := echo_head_le (args.map cstr)
  rw [List.length_map] at hhead
  unfold call_function
  simp only
  rw [call_function_scan_none name _ _ w _ hno]
  simp only
  rw [echo_func_result args _ (by omega), List.take_of_length_le (by omega)]

theorem call_function_fallback_witness :
    (call_function (some (bytes "nope")) ([bytes "x", bytes "y"].length : Int)
        (some ([bytes "x", bytes "y"].map some))
        ⟨(register_all sample_regs g_ctx_zero).1, [], [], [], []⟩).2 =
        some (echo_rendering ([bytes "x", bytes "y"].map cstr)) ∧
    (call_function (some (bytes "echo")) 2 (some [some (bytes "x"), some (bytes "y")])
        World.start).2 = some (bytes "argc=2 argv[0]=\x27x\x27 argv[1]=\x27y\x27") :=
  call_function_fallback ⟨(register_all sample_regs g_ctx_zero).1, [], [], [], []⟩
    (bytes "nope") [bytes "x", bytes "y"] (by decide) (by decide)

/-! ## C10: a fallback text that does not fit -/

theorem fmt_nat_length_le (n : Nat) (h : n ≤ INT_MAX) : (fmt_nat n).length ≤ 10 := by
  unfold fmt_nat Nat.toDigits
  rw [List.length_map]
  exact Nat.toDigitsCore_length 10 (by decide) (n + 1) n 10
    (by unfold INT_MAX at h; omega) (by decide)

/-- C10, as the code has it: for arguments (at most `INT_MAX` of them) whose
fallback text does not fit the 2048-byte buffer, `echo_func` returns no error
text.  The result is the text cut to the buffer: it begins the complete text,
is shorter than the buffer, starts with `argc=`, and keeps `argc=n` with every
leading argument whose text fits completely. -/
theorem echo_func_truncates (args : List CharPtr) (w : World)
    (hargc : args.length ≤ INT_MAX)
    (hbig : RPC_BUFFER_SIZE ≤ (echo_rendering (args.map cstr)).length) :
    ∃ r, (echo_func (args.length : Int) (some (args.map some)) w).2 = some r ∧
      r <+: echo_rendering (args.map cstr) ∧ r.length < RPC_BUFFER_SIZE ∧
      r ≠ echo_rendering (args.map cstr) ∧
      bytes "argc=" <+: r ∧ r ≠ bytes "error: buffer overflow" ∧
      ∀ k, (bytes "argc=" ++ fmt_nat args.length ++
            echo_rendering_from 0 ((args.take k).map cstr)).length < RPC_BUFFER_SIZE →
        bytes "argc=" ++ fmt_nat args.length ++
          echo_rendering_from 0 ((args.take k).map cstr) <+: r := by
  have hhead : (bytes "argc=" ++ fmt_nat args.length).length < RPC_BUFFER_SIZE := by
    have := fmt_nat_length_le args.length hargc
    have h5 : (bytes "argc=").length = 5 := by decide
    rw [List.length_append, h5]
    unfold RPC_BUFFER_SIZE
    omega
  have hlenr : ((echo_rendering (args.map cstr)).take (RPC_BUFFER_SIZE - 1)).length <
      RPC_BUFFER_SIZE := by
    have := List.length_take_le (RPC_BUFFER_SIZE - 1) (echo_rendering (args.map cstr))
    unfold RPC_BUFFER_SIZE at this ⊢
    omega
  have hpre : bytes "argc=" <+:
      (echo_rendering (args.map cstr)).take (RPC_BUFFER_SIZE - 1) := by
    apply take_keeps_start _ _ (by decide)
    unfold echo_rendering
    rw [List.append_assoc]
    exact List.prefix_append _ _
  refine ⟨_, echo_func_result args w hhead, List.take_prefix _ _, hlenr, ?_, hpre, ?_, ?_⟩
  · intro h
    rw [h] at hlenr
    omega
  · intro h
    rw [h] at hpre
    exact absurd hpre (by decide)
  · intro k hk
    apply take_keeps_start _ _ (by unfold RPC_BUFFER_SIZE at hk ⊢; omega)
    unfold echo_rendering
    rw [List.length_map]
    have hsplit : args.map cstr = (args.take k).map cstr ++ (args.drop k).map cstr := by
      rw [← List.map_append, List.take_append_drop]
    rw [hsplit, echo_rendering_from_append, ← List.append_assoc]
    exact List.prefix_append _ _

theorem echo_one_long (n m : Nat) (hm : m + 16 = RPC_BUFFER_SIZE - 1) (hn : m ≤ n) :
    (echo_rendering ([List.replicate n 97].map cstr)).take (RPC_BUFFER_SIZE - 1) =
      bytes "argc=1 argv[0]=\x27" ++ List.replicate m 97 := by
  have hc : cstr (List.replicate n 97) = List.replicate n 97 :=
    cstr_of_not_mem _ (by simp [List.mem_replicate])
  have hr : echo_rendering ([List.replicate n 97].map cstr) =
      bytes "argc=1 argv[0]=\x27" ++ (List.replicate n 97 ++ [39]) := by
    have h16 : bytes "argc=1 argv[0]=\x27" =
        bytes "argc=" ++ fmt_nat 1 ++ (bytes " argv[" ++ fmt_nat 0 ++ bytes "]=" ++ [39]) := by
      decide
    rw [h16]
    simp [echo_rendering, echo_rendering_from, hc]
  have h16l : (bytes "argc=1 argv[0]=\x27").length = 16 := by decide
  rw [hr, take_append_cut _ _ _ _ (by rw [h16l]; omega)
    (by rw [h16l, List.length_replicate]; omega), h16l, List.take_replicate]
  have : min (RPC_BUFFER_SIZE - 1 - 16) n = m := by omega
  rw [this]

theorem echo_one_long_length (n : Nat) :
    (echo_rendering ([List.replicate n 97].map cstr)).length = n + 17 := by
  have hc : cstr (List.replicate n 97) = List.replicate n 97 :=
    cstr_of_not_mem _ (by simp [List.mem_replicate])
  have h6 : (bytes "argc=" ++ fmt_nat 1).length = 6 := by decide
  have h9 : (bytes " argv[" ++ fmt_nat 0 ++ bytes "]=").length = 9 := by decide
  simp only [echo_rendering, echo_rendering_from, List.map_cons, List.map_nil, hc,
    List.length_singleton, List.length_append, List.length_replicate, h6, h9,
    List.length_nil]
  omega

theorem echo_func_truncates_witness :
    ∃ r, (echo_func ([List.replicate 2048 97].length : Int)
          (some ([List.replicate 2048 97].map some)) World.start).2 = some r ∧
      r <+: echo_rendering ([List.replicate 2048 97].map cstr) ∧
      r.length < RPC_BUFFER_SIZE ∧
      r ≠ echo_rendering ([List.replicate 2048 97].map cstr) ∧
      bytes "argc=" <+: r ∧ r ≠ bytes "error: buffer overflow" ∧
      ∀ k, (bytes "argc=" ++ fmt_nat [List.replicate 2048 97].length ++
            echo_rendering_from 0 (([List.replicate 2048 97].take k).map cstr)).length <
              RPC_BUFFER_SIZE →
        bytes "argc=" ++ fmt_nat [List.replicate 2048 97].length ++
          echo_rendering_from 0 (([List.replicate 2048 97].take k).map cstr) <+: r :=
  echo_func_truncates [List.replicate 2048 97] World.start (by decide)
    (by rw [echo_one_long_length]; decide)

/-- C10 fails as stated: for one argument of 2048 bytes `a` the fallback text
has 2065 bytes and does not fit the buffer, and `echo_func` returns, without
any error text, the first 2047 bytes of it: the argument is cut after 2031
bytes and its closing quote is gone. -/
theorem echo_func_truncation_counterexample :
    RPC_BUFFER_SIZE ≤ (echo_rendering ([List.replicate 2048 97].map cstr)).length ∧
    (echo_func 1 (some [some (List.replicate 2048 97)]) World.start).2 =
      some (bytes "argc=1 argv[0]=\x27" ++ List.replicate 2031 97) := by
  refine ⟨by rw [echo_one_long_length]; decide, ?_⟩
  have h := echo_func_result [List.replicate 2048 97] World.start (by decide)
  rw [echo_one_long 2048 2031 (by decide) (by decide)] at h
  exact h

/-! ## C8: shutdown through `stop` -/

/-- C8, on the code: `rpc_init` sets the running flag and `stop_func` clears it
and returns `0`; the first `rpc_deinit` after that returns `EINVAL` and changes
nothing, so the thread is not joined and the socket is not closed.  Without
`stop`, the first `rpc_deinit` after `rpc_init` returns `0` and the second
`EINVAL`.  The same on a datagram: a server that has `stop` registered answers
the request `stop` with `0`, clears the flag, and the `rpc_deinit` that follows
returns `EINVAL`, closing and joining nothing. -/
theorem rpc_deinit_after_stop (env : init_env) (w : World) (argc : Int)
    (argv : Option Argv) :
    (rpc_init env w).1.g_ctx.keep_running = true ∧
    (stop_func argc argv (rpc_init env w).1).2 = some (bytes "0") ∧
    (stop_func argc argv (rpc_init env w).1).1.g_ctx.keep_running = false ∧
    rpc_deinit (some ctx_ptr.g_ctx) (stop_func argc argv (rpc_init env w).1).1 =
      ((stop_func argc argv (rpc_init env w).1).1, EINVAL) ∧
    (rpc_deinit (some ctx_ptr.g_ctx) (rpc_init env w).1).2 = 0 ∧
    (rpc_deinit (some ctx_ptr.g_ctx)
      (rpc_deinit (some ctx_ptr.g_ctx) (rpc_init env w).1).1).2 = EINVAL ∧
    (rpc_handle_request (some (bytes "stop" ++ [0])) 5 (some ⟨1, 16⟩) (List.replicate 10 none)
        (rpc_init ⟨3, 0, 0, 7⟩
          ⟨(register_all sample_regs g_ctx_zero).1, [], [], [], []⟩).1).map
      (fun r => (r.2, r.1.sent.map Prod.snd, r.1.g_ctx.keep_running,
        (rpc_deinit (some ctx_ptr.g_ctx) r.1).2,
        (rpc_deinit (some ctx_ptr.g_ctx) r.1).1.closed,
        (rpc_deinit (some ctx_ptr.g_ctx) r.1).1.joined,
        (rpc_deinit (some ctx_ptr.g_ctx) r.1).1.g_ctx.sock_fd)) =
      some (RPC_SUCCESS, [bytes "0"], false, EINVAL, [], [], 3) := by
  have hrun : (rpc_init env w).1.g_ctx.keep_running = true := by
    unfold rpc_init
    simp only
    split
    · rfl
    · split
      · rfl
      · split <;> rfl
  refine ⟨hrun, rfl, rfl, rfl, ?_, ?_, rfl⟩
  · unfold rpc_deinit
    simp only [hrun, Bool.true_eq_false, if_false]
    split <;> rfl
  · have h2 : (rpc_deinit (some ctx_ptr.g_ctx) (rpc_init env w).1).1.g_ctx.keep_running =
        false := by
      unfold rpc_deinit
      simp only [hrun, Bool.true_eq_false, if_false]
      split <;> rfl
    generalize (rpc_deinit (some ctx_ptr.g_ctx) (rpc_init env w).1).1 = w2 at h2
    unfold rpc_deinit
    simp only [h2, if_true]

/-! ## C9: a bad datagram -/

theorem parse_loop_total (argv_size : Nat) :
    ∀ (fuel : Nat) (p : List Nat) (k : Nat) (argv : Argv), p.length < fuel →
      ∃ r, parse_loop argv_size fuel p k argv = some r := by
  intro fuel
  induction fuel with
  | zero => intro p k argv h; omega
  | succ fuel ih =>
    intro p k argv hfuel
    unfold parse_loop
    split
    · cases hs : skip_zeros p with
      | nil => exact ⟨([], k, argv), by simp⟩
      | cons c q =>
        have hc : c ≠ 0 := skip_zeros_head p c q hs
        have hlen1 : (c :: q).length ≤ p.length := hs ▸ skip_zeros_length_le p
        have hlen2 : (skip_nonzeros (c :: q)).length ≤ q.length := by
          unfold skip_nonzeros
          rw [if_pos hc]
          exact skip_nonzeros_length_le q
        simp only [List.length_cons] at hlen1
        simp only [reduceCtorEq, if_false]
        split
        · exact ⟨_, rfl⟩
        · exact ih _ _ _ (by omega)
    · exact ⟨_, rfl⟩

/-- The function `parse_args` returns on every input. -/
theorem parse_args_total (buffer : List Nat) (bufsize : Nat) (argc : Int) (argv : Argv)
    (argv_size : Nat) : ∃ r, parse_args buffer bufsize argc argv argv_size = some r := by
  unfold parse_args
  split
  · exact ⟨_, rfl⟩
  · obtain ⟨r, hr⟩ := parse_loop_total argv_size (bufsize + 1) (buffer.take bufsize) 0 argv
      (by have := List.length_take_le bufsize buffer; omega)
    rw [hr]
    simp only
    split
    · exact ⟨_, rfl⟩
    · split
      · exact ⟨_, rfl⟩
      · exact ⟨_, rfl⟩

/-- The function `rpc_handle_request` returns on every input, and when it
returns `RPC_ERROR` the state is the one before the call. -/
theorem rpc_handle_request_frame (buffer : Option (List Nat)) (recv_size : Int)
    (client : Option client_info_t) (argv : Argv) (w : World) :
    ∃ r, rpc_handle_request buffer recv_size client argv w = some r ∧
      (r.2 = RPC_ERROR ∨ r.2 = RPC_SUCCESS) ∧ (r.2 = RPC_ERROR → r.1 = w) := by
  unfold rpc_handle_request
  cases buffer with
  | none => exact ⟨_, rfl, Or.inl rfl, fun _ => rfl⟩
  | some buffer =>
    simp only
    split
    · exact ⟨_, rfl, Or.inl rfl, fun _ => rfl⟩
    · split
      · exact ⟨_, rfl, Or.inl rfl, fun _ => rfl⟩
      · obtain ⟨r, hr⟩ := parse_args_total (buffer.set recv_size.toNat 0) recv_size.toNat 0
          argv MAX_ARGS
        rw [hr]
        simp only
        split
        · exact ⟨_, rfl, Or.inl rfl, fun _ => rfl⟩
        · split
          · exact ⟨_, rfl, Or.inr rfl, fun h => absurd (show RPC_SUCCESS = RPC_ERROR from h) (by decide)⟩
          · exact ⟨_, rfl, Or.inl rfl, fun _ => rfl⟩

/-- Which datagrams `rpc_handle_request` rejects: with a size in `0 .. 4095`, those
of size 0, those without a token and those with more than `MAX_ARGS - 1`
tokens. -/
theorem rpc_handle_request_error_iff (data : List Nat) (recv_size : Int)
    (client : client_info_t) (argv : Argv) (w : World) (r : World × Int)
    (hargv : argv.length = MAX_ARGS) (h0 : 0 ≤ recv_size)
    (h1 : recv_size < (RPC_MAX_PACKET_SIZE : Int))
    (hr : rpc_handle_request (some data) recv_size (some client) argv w = some r) :
    r.2 = RPC_ERROR ↔
      (recv_size = 0 ∨ tokens (data.take recv_size.toNat) = [] ∨
        MAX_ARGS - 1 < (tokens (data.take recv_size.toNat)).length) := by
  unfold rpc_handle_request at hr
  have hcl : ¬ ((some client).isNone = true) := by simp
  have hsz : ¬ (recv_size < 0 ∨ recv_size ≥ (RPC_MAX_PACKET_SIZE : Int)) := by omega
  simp only [if_neg hcl, if_neg hsz] at hr
  by_cases hn : recv_size.toNat = 0
  · have hz : recv_size = 0 := by omega
    have hp : parse_args (data.set recv_size.toNat 0) recv_size.toNat 0 argv MAX_ARGS =
        some ⟨EINVAL, 0, argv⟩ := by
      unfold parse_args
      rw [if_pos hn]
    rw [hp] at hr
    simp only [ne_eq, show ¬ (EINVAL = (0 : Int)) by decide, not_false_eq_true, if_true,
      Option.some.injEq] at hr
    rw [← hr]
    exact ⟨fun _ => Or.inl hz, fun _ => rfl⟩
  · obtain ⟨q, hq, hov, _, hok⟩ := parse_args_spec_region (data.set recv_size.toNat 0)
      recv_size.toNat 0 argv MAX_ARGS hn (by decide) (by decide) hargv
    rw [take_set_same] at hov hok
    rw [hq] at hr
    simp only at hr
    have hz : ¬ recv_size = 0 := by omega
    by_cases hmany : MAX_ARGS - 1 < (tokens (data.take recv_size.toNat)).length
    · have hret : q.ret ≠ 0 := by
        rw [(hov hmany).1]; decide
      rw [if_pos hret] at hr
      simp only [Option.some.injEq] at hr
      rw [← hr]
      exact ⟨fun _ => Or.inr (Or.inr hmany), fun _ => rfl⟩
    · obtain ⟨e1, e2, e3, _⟩ := hok (by omega)
        (by unfold MAX_ARGS at hmany; unfold INT_MAX; omega)
      rw [if_neg (by rw [e1]; simp)] at hr
      cases ht : tokens (data.take recv_size.toNat) with
      | nil =>
        rw [ht] at e2
        have hc : ¬ (q.argc > 0 ∧ (q.argv.getD 0 none).isSome = true) := by
          rw [e2]; simp
        rw [if_neg hc] at hr
        simp only [Option.some.injEq] at hr
        rw [← hr]
        exact ⟨fun _ => Or.inr (Or.inl rfl), fun _ => rfl⟩
      | cons t ts =>
        rw [ht] at e2 e3
        have h0q : ∃ p0, q.argv[0]? = some (some p0) := by
          have := congrArg (fun l => l[0]?) e3
          simp only [argv_strings, List.length_cons, List.getElem?_map, List.getElem?_take,
            List.map_cons, List.getElem?_cons_zero] at this
          rw [if_pos (by omega)] at this
          cases hq0 : q.argv[0]? with
          | none => rw [hq0] at this; simp at this
          | some o =>
            cases o with
            | none => rw [hq0] at this; simp at this
            | some p0 => exact ⟨p0, rfl⟩
        obtain ⟨p0, hp0⟩ := h0q
        have hc : q.argc > 0 ∧ (q.argv.getD 0 none).isSome = true := by
          refine ⟨by rw [e2]; simp only [List.length_cons]; omega, ?_⟩
          simp [List.getD, hp0]
        rw [if_pos hc] at hr
        simp only [Option.some.injEq] at hr
        rw [← hr]
        constructor
        · intro h
          exact absurd (show RPC_SUCCESS = RPC_ERROR from h) (by decide)
        · intro h
          rcases h with h | h | h
          · exact absurd h hz
          · simp at h
          · rw [ht] at hmany
            exact absurd h hmany

/-- C9: `rpc_handle_request` returns on every datagram; it returns `RPC_ERROR`
for every size outside `0 .. 4095` and, with a size inside, exactly for a
datagram of size 0, without a token or with more than `MAX_ARGS - 1` tokens;
whenever it returns `RPC_ERROR` the state is the one before the call: no
callback and no fallback invoked, no reply sent, the running flag and the
registry unchanged; and the server thread, in the iteration that took such a
datagram, goes on from the unchanged state. -/
theorem rpc_handle_request_bad_datagram (buffer : Option (List Nat)) (recv_size : Int)
    (client : Option client_info_t) (argv : Argv) (w : World) :
    ∃ r, rpc_handle_request buffer recv_size client argv w = some r ∧
      (r.2 = RPC_ERROR ∨ r.2 = RPC_SUCCESS) ∧
      (r.2 = RPC_ERROR →
        r.1 = w ∧ r.1.calls = w.calls ∧ r.1.sent = w.sent ∧
        r.1.g_ctx.keep_running = w.g_ctx.keep_running ∧
        r.1.g_ctx.functions = w.g_ctx.functions ∧
        r.1.g_ctx.function_count = w.g_ctx.function_count) ∧
      (recv_size < 0 ∨ (RPC_MAX_PACKET_SIZE : Int) ≤ recv_size → r.2 = RPC_ERROR) ∧
      (∀ data cl, buffer = some data → client = some cl → argv.length = MAX_ARGS →
        0 ≤ recv_size → recv_size < (RPC_MAX_PACKET_SIZE : Int) →
        (r.2 = RPC_ERROR ↔
          (recv_size = 0 ∨ tokens (data.take recv_size.toNat) = [] ∨
            MAX_ARGS - 1 < (tokens (data.take recv_size.toNat)).length))) ∧
      (∀ (ev : server_event) (evs : List server_event),
        w.g_ctx.keep_running = true → 0 < ev.ready → ev.fd_isset = true →
        0 < recv_len ev.recv →
        buffer = some (recv_buffer (ev.recv.getD [])) → recv_size = recv_len ev.recv →
        client = some ev.client → argv = ev.argv → r.2 = RPC_ERROR →
        rpc_server_thread (ev :: evs) w = rpc_server_thread evs w) := by
  obtain ⟨r, hr, hcases, hframe⟩ := rpc_handle_request_frame buffer recv_size client argv w
  refine ⟨r, hr, hcases, ?_, ?_, ?_, ?_⟩
  · intro h
    have := hframe h
    rw [this]
    exact ⟨rfl, rfl, rfl, rfl, rfl, rfl⟩
  · intro hsz
    unfold rpc_handle_request at hr
    cases buffer with
    | none =>
      simp only [Option.some.injEq] at hr
      rw [← hr]
    | some data =>
      simp only at hr
      by_cases hcl : client.isNone = true
      · rw [if_pos hcl] at hr
        simp only [Option.some.injEq] at hr
        rw [← hr]
      · rw [if_neg hcl, if_pos (by omega)] at hr
        simp only [Option.some.injEq] at hr
        rw [← hr]
  · intro data cl hb hc hargv h0 h1
    subst hb hc
    exact rpc_handle_request_error_iff data recv_size cl argv w r hargv h0 h1 hr
  · intro ev evs hrun hready hset hlen hb hs hc ha herr
    subst hb hs hc ha
    have hw := hframe herr
    conv_lhs => unfold rpc_server_thread
    rw [if_neg (by rw [hrun]; simp), if_neg (by omega), if_pos ⟨hready, hset⟩,
      if_neg (by omega), hr]
    simp only [hw]

theorem rpc_handle_request_bad_datagram_witness :
    rpc_server_thread
        [⟨1, 0, true, some [0, 0], ⟨1, 16⟩, List.replicate 10 none⟩]
        (rpc_init ⟨3, 0, 0, 7⟩ ⟨(register_all sample_regs g_ctx_zero).1, [], [], [], []⟩).1 =
      rpc_server_thread []
        (rpc_init ⟨3, 0, 0, 7⟩ ⟨(register_all sample_regs g_ctx_zero).1, [], [], [], []⟩).1 := by
  obtain ⟨r, _, _, _, _, hiff, hloop⟩ :=
    rpc_handle_request_bad_datagram (some (recv_buffer [0, 0])) 2 (some ⟨1, 16⟩)
      (List.replicate 10 none)
      (rpc_init ⟨3, 0, 0, 7⟩ ⟨(register_all sample_regs g_ctx_zero).1, [], [], [], []⟩).1
  exact hloop ⟨1, 0, true, some [0, 0], ⟨1, 16⟩, List.replicate 10 none⟩ [] rfl (by decide)
    rfl (by decide) rfl rfl rfl rfl
    ((hiff (recv_buffer [0, 0]) ⟨1, 16⟩ rfl rfl (by decide) (by decide) (by decide)).2
      (Or.inr (Or.inl (by decide))))

/-! ## C11: the callback `add_func` -/

theorem digitChar_toNat (d : Nat) (h : d < 10) : (Nat.digitChar d).toNat = 48 + d := by
  interval_cases d <;> rfl

theorem isdigit_digitChar (d : Nat) (h : d < 10) : isdigit (Nat.digitChar d).toNat = true := by
  interval_cases d <;> rfl

/-- Reading back the digits that `Nat.toDigitsCore` puts in front of `ds`. -/
theorem digits_value_toDigitsCore :
    ∀ (f n : Nat) (ds : List Char), n < f →
      digits_value 0 ((Nat.toDigitsCore 10 f n ds).map Char.toNat) =
        digits_value n (ds.map Char.toNat) := by
  intro f
  induction f with
  | zero => intro n ds h; omega
  | succ f ih =>
    intro n ds h
    have hd : n % 10 < 10 := Nat.mod_lt _ (by decide)
    have hstep : digits_value (n / 10) ((Nat.digitChar (n % 10) :: ds).map Char.toNat) =
        digits_value n (ds.map Char.toNat) := by
      rw [List.map_cons, digits_value, if_pos (isdigit_digitChar _ hd),
        digitChar_toNat _ hd]
      have : n / 10 * 10 + (48 + n % 10 - 48) = n := by omega
      rw [this]
    unfold Nat.toDigitsCore
    simp only
    by_cases h0 : n / 10 = 0
    · rw [if_pos h0]
      rw [← hstep, h0]
    · rw [if_neg h0, ih (n / 10) _ (by omega), hstep]

theorem digits_value_fmt_nat (n : Nat) : digits_value 0 (fmt_nat n) = n := by
  unfold fmt_nat Nat.toDigits
  rw [digits_value_toDigitsCore (n + 1) n [] (by omega)]
  rfl

/-- The text of a number starts with a digit. -/
theorem toDigitsCore_head :
    ∀ (f n : Nat) (ds : List Char), n < f →
      ∃ c r, (Nat.toDigitsCore 10 f n ds).map Char.toNat = c :: r ∧ isdigit c = true := by
  intro f
  induction f with
  | zero => intro n ds h; omega
  | succ f ih =>
    intro n ds h
    have hd : n % 10 < 10 := Nat.mod_lt _ (by decide)
    unfold Nat.toDigitsCore
    simp only
    by_cases h0 : n / 10 = 0
    · rw [if_pos h0]
      exact ⟨_, _, List.map_cons _ _ _, isdigit_digitChar _ hd⟩
    · rw [if_neg h0]
      exact ih (n / 10) _ (by omega)

theorem fmt_nat_head (n : Nat) : ∃ c r, fmt_nat n = c :: r ∧ isdigit c = true := by
  unfold fmt_nat Nat.toDigits
  exact toDigitsCore_head (n + 1) n [] (by omega)

theorem strtol_of_digit (p : CharPtr) (c : Nat) (r : List Nat) (h : cstr p = c :: r)
    (hc : isdigit c = true) : strtol p = min LONG_MAX (digits_value 0 (c :: r) : Int) := by
  have hc2 : 48 ≤ c ∧ c ≤ 57 := by simpa [isdigit] using hc
  have hs : skip_spaces (c :: r) = c :: r := by
    unfold skip_spaces
    rw [if_neg]
    simp [isspace]
    omega
  unfold strtol
  rw [h, hs]
  split
  · rename_i e
    simp only [List.cons.injEq] at e
    omega
  · rename_i e
    simp only [List.cons.injEq] at e
    omega
  · rfl

theorem strtol_of_minus (p : CharPtr) (r : List Nat) (h : cstr p = 45 :: r) :
    strtol p = max LONG_MIN (-(digits_value 0 r : Int)) := by
  unfold strtol
  rw [h]
  rfl

/-- The function `strtol` reads back the text that `%d` writes. -/
theorem strtol_fmt_d (p : CharPtr) (a : Int) (h : cstr p = fmt_d a)
    (h1 : LONG_MIN ≤ a) (h2 : a ≤ LONG_MAX) : strtol p = a := by
  unfold fmt_d at h
  by_cases hneg : a < 0
  · rw [if_pos hneg] at h
    rw [strtol_of_minus p _ h, digits_value_fmt_nat]
    have : ((-a).toNat : Int) = -a := Int.toNat_of_nonneg (by omega)
    rw [this]
    unfold LONG_MIN at *
    omega
  · rw [if_neg hneg] at h
    obtain ⟨c, r, e, hc⟩ := fmt_nat_head a.toNat
    rw [e] at h
    rw [strtol_of_digit p c r h hc, ← e, digits_value_fmt_nat]
    have : (a.toNat : Int) = a := Int.toNat_of_nonneg (by omega)
    rw [this]
    unfold LONG_MAX at *
    omega


theorem fmt_d_length_le (x : Int) (h1 : -2147483648 ≤ x) (h2 : x ≤ 2147483647) :
    (fmt_d x).length ≤ 11 := by
  have hn : ∀ n : Nat, n ≤ 2147483648 → (fmt_nat n).length ≤ 10 := by
    intro n hn
    unfold fmt_nat Nat.toDigits
    rw [List.length_map]
    exact Nat.toDigitsCore_length 10 (by decide) (n + 1) n 10 (by omega) (by decide)
  unfold fmt_d
  split
  · have := hn (-x).toNat (by omega)
    simp only [List.length_cons]
    omega
  · have := hn x.toNat (by omega)
    omega

theorem to_int32_of_range (x : Int) (h1 : -2147483648 ≤ x) (h2 : x ≤ 2147483647) :
    to_int32 x = x := by
  unfold to_int32
  omega

theorem add_func_missing_eq : add_func_missing = some (bytes "-2") := by decide

/-- The formatting step of `add_func`: a text shorter than the buffer is the
result. -/
theorem add_func_format (out : List Nat) (h : out.length < RESULT_BUFFER_SIZE) :
    (if (snprintf [] 0 RESULT_BUFFER_SIZE out).2 < 0 ∨
        (snprintf [] 0 RESULT_BUFFER_SIZE out).2.toNat ≥ RESULT_BUFFER_SIZE then
      some (bytes "Error: Buffer overflow")
    else some (snprintf [] 0 RESULT_BUFFER_SIZE out).1) = some out := by
  have h64 : RESULT_BUFFER_SIZE = 64 := rfl
  have e1 : (snprintf [] 0 RESULT_BUFFER_SIZE out).1 = out := by
    unfold snprintf
    simp only
    rw [if_neg (by decide), List.take_nil, List.nil_append,
      List.take_of_length_le (by rw [h64] at h ⊢; omega)]
  have e2 : (snprintf [] 0 RESULT_BUFFER_SIZE out).2 = (out.length : Int) := by
    unfold snprintf
    simp only
    rw [if_neg (by rw [h64] at h; unfold INT_MAX; omega)]
  rw [e1, e2, if_neg]
  simp only [Int.toNat_ofNat]
  omega

/-- C11: `add_func` returns `-2` whenever the argument count is not 2 or an
argument is absent; with exactly two arguments that are the decimal texts of
integers `a` and `b`, where `a`, `b` and `a + b` fit 32 signed bits, it returns
the decimal text of `a + b`; and with `add` registered, `rpc_handle_request`
answers the request `add`, `2`, `3` with `5` and the request `add` with `-2`. -/
theorem add_func_reference :
    (∀ (argc : Int) (argv : Option Argv),
      (argc ≠ 2 ∨ argv = none ∨
        ∃ l, argv = some l ∧ (l.getD 0 none = none ∨ l.getD 1 none = none)) →
      add_func argc argv = some (bytes "-2")) ∧
    (∀ (a b : Int) (p q : CharPtr) (rest : Argv),
      -2147483648 ≤ a → a ≤ 2147483647 → -2147483648 ≤ b → b ≤ 2147483647 →
      -2147483648 ≤ a + b → a + b ≤ 2147483647 →
      cstr p = fmt_d a → cstr q = fmt_d b →
      add_func 2 (some (some p :: some q :: rest)) = some (fmt_d (a + b))) ∧
    (rpc_handle_request
        (some (bytes "add" ++ [0] ++ bytes "2" ++ [0] ++ bytes "3" ++ [0])) 8
        (some ⟨1, 16⟩) (List.replicate 10 none)
        ⟨(register_all add_regs g_ctx_zero).1, [], [], [], []⟩).map
      (fun r => (r.2, r.1.sent.map Prod.snd)) = some (RPC_SUCCESS, [bytes "5"]) ∧
    (rpc_handle_request (some (bytes "add" ++ [0])) 4 (some ⟨1, 16⟩)
        (List.replicate 10 none)
        ⟨(register_all add_regs g_ctx_zero).1, [], [], [], []⟩).map
      (fun r => (r.2, r.1.sent.map Prod.snd)) = some (RPC_SUCCESS, [bytes "-2"]) := by
  refine ⟨?_, ?_, rfl, rfl⟩
  · intro argc argv h
    cases argv with
    | none => exact add_func_missing_eq
    | some l =>
      unfold add_func
      simp only
      by_cases hc : argc ≠ 2
      · rw [if_pos hc]
        exact add_func_missing_eq
      · rw [if_neg hc]
        rcases h with h | h | ⟨l2, e, h⟩
        · exact absurd h hc
        · exact absurd h (by simp)
        · simp only [Option.some.injEq] at e
          subst e
          rcases h with h | h
          · rw [h]
            exact add_func_missing_eq
          · rw [h]
            split
            · rename_i e1
              exact absurd e1 (by simp)
            · exact add_func_missing_eq
  · intro a b p q rest ha1 ha2 hb1 hb2 hs1 hs2 hp hq
    have e1 : strtol p = a :=
      strtol_fmt_d p a hp (by unfold LONG_MIN; omega) (by unfold LONG_MAX; omega)
    have e2 : strtol q = b :=
      strtol_fmt_d q b hq (by unfold LONG_MIN; omega) (by unfold LONG_MAX; omega)
    unfold add_func
    simp only [ne_eq, not_true_eq_false, if_false, List.getD_cons_zero, List.getD_cons_succ,
      e1, e2, to_int32_of_range a ha1 ha2, to_int32_of_range b hb1 hb2,
      to_int32_of_range (a + b) hs1 hs2]
    exact add_func_format _
      (by have := fmt_d_length_le (a + b) hs1 hs2; unfold RESULT_BUFFER_SIZE; omega)

theorem add_func_reference_witness :
    add_func 3 (some [some (bytes "1"), some (bytes "2"), some (bytes "3")]) =
        some (bytes "-2") ∧
    add_func 2 (some [some (bytes "41"), none]) = some (bytes "-2") ∧
    add_func 2 (some [some (fmt_d 2147483000 ++ [0, 7]), some (fmt_d (-2147483648))]) =
        some (fmt_d (2147483000 + -2147483648)) :=
  ⟨add_func_reference.1 3 _ (Or.inl (by decide)),
    add_func_reference.1 2 (some [some (bytes "41"), none])
      (Or.inr (Or.inr ⟨_, rfl, Or.inr rfl⟩)),
    add_func_reference.2.1 2147483000 (-2147483648) (fmt_d 2147483000 ++ [0, 7])
      (fmt_d (-2147483648)) [] (by decide) (by decide) (by decide) (by decide) (by decide)
      (by decide) (by decide) (by decide)⟩

/-! ## C12: names of 50 bytes or more -/

theorem call_function_scan_append (name : CharPtr) (argc : Int) (argv : Option Argv)
    (w : World) (old rest : List rpc_func_t)
    (h : ∀ e ∈ old, cstr name ≠ cstr e.name) :
    call_function_scan name argc argv w (old ++ rest) =
      call_function_scan name argc argv w rest := by
  induction old with
  | nil => rfl
  | cons e r ih =>
    rw [List.cons_append, call_function_scan, if_neg (h e (by simp))]
    exact ih (fun q hq => h q (by simp [hq]))

theorem not_mem_take (l : List Nat) (n : Nat) (h : 0 ∉ l) : 0 ∉ l.take n :=
  fun hm => h (List.mem_of_mem_take hm)

/-- C12: when `register_str_func` succeeds for a name of 50 bytes or more, free
of the `0` byte, in a registry none of whose entries compares equal to the name
or to its first 49 bytes, the entry stored is the first 49 bytes of the name
with the callback; a call of the complete name goes to the fallback
`echo_func`, and the callback is not invoked; a call of the first 49 bytes
invokes the callback. -/
theorem register_long_name (w : World) (name : CharPtr) (f : rpc_string_cb) (argc : Int)
    (argv : Option Argv) (hlen : NAME_SIZE ≤ name.length) (h0 : 0 ∉ name)
    (harr : w.g_ctx.functions.length = MAX_FUNCTIONS)
    (hok : (register_str_func (some name) (some f) w.g_ctx).2 = RPC_SUCCESS)
    (hno : ∀ e ∈ w.g_ctx.functions.take w.g_ctx.function_count,
      cstr name ≠ cstr e.name ∧ cstr (name.take (NAME_SIZE - 1)) ≠ cstr e.name) :
    (register_str_func (some name) (some f) w.g_ctx).1.function_count =
        w.g_ctx.function_count + 1 ∧
    ((register_str_func (some name) (some f) w.g_ctx).1.functions[w.g_ctx.function_count]?).map
        (fun e => e.name) = some (name.take (NAME_SIZE - 1)) ∧
    call_function (some name) argc argv
        { w with g_ctx := (register_str_func (some name) (some f) w.g_ctx).1 } =
      echo_func argc argv
        { w with g_ctx := (register_str_func (some name) (some f) w.g_ctx).1,
                 calls := w.calls ++ [(rpc_string_cb.echo_func, argc, argv)] } ∧
    call_function (some (name.take (NAME_SIZE - 1))) argc argv
        { w with g_ctx := (register_str_func (some name) (some f) w.g_ctx).1 } =
      run_cb f argc argv
        { w with g_ctx := (register_str_func (some name) (some f) w.g_ctx).1,
                 calls := w.calls ++ [(f, argc, argv)] } := by
  obtain ⟨hcount, hctx⟩ := register_str_func_ok w.g_ctx name f hok
  have hcs : cstr name = name := cstr_of_not_mem name h0
  have hsl : strlen name = name.length := by unfold strlen; rw [hcs]
  have hnl : (if strlen name ≥ NAME_SIZE then NAME_SIZE - 1 else strlen name) =
      NAME_SIZE - 1 := by
    rw [if_pos (by rw [hsl]; exact hlen)]
  rw [hnl] at hctx
  have hct : cstr (name.take (NAME_SIZE - 1)) = name.take (NAME_SIZE - 1) :=
    cstr_of_not_mem _ (not_mem_take name _ h0)
  have hne : name ≠ name.take (NAME_SIZE - 1) := by
    intro e
    have := congrArg List.length e
    rw [List.length_take] at this
    unfold NAME_SIZE at hlen this
    omega
  have hk : w.g_ctx.function_count < w.g_ctx.functions.length := by
    rw [harr]; exact hcount
  have htake : (register_str_func (some name) (some f) w.g_ctx).1.functions.take
      (register_str_func (some name) (some f) w.g_ctx).1.function_count =
      w.g_ctx.functions.take w.g_ctx.function_count ++
        [⟨name.take (NAME_SIZE - 1), some f⟩] := by
    rw [hctx]
    exact set_take_succ _ _ _ hk
  refine ⟨by rw [hctx], ?_, ?_, ?_⟩
  · rw [hctx]
    simp only
    rw [List.getElem?_set_self hk]
    rfl
  · unfold call_function
    simp only
    rw [htake, call_function_scan_append name argc argv _ _ _ (fun e he => (hno e he).1)]
    unfold call_function_scan
    simp only
    rw [if_neg (by rw [hcs, hct]; exact hne)]
    rfl
  · unfold call_function
    simp only
    rw [htake, call_function_scan_append _ argc argv _ _ _ (fun e he => (hno e he).2)]
    unfold call_function_scan
    simp only [if_true]

theorem register_long_name_witness :
    (register_str_func (some long_name) (some rpc_string_cb.stop_func)
        World.start.g_ctx).1.function_count = World.start.g_ctx.function_count + 1 ∧
    ((register_str_func (some long_name) (some rpc_string_cb.stop_func)
        World.start.g_ctx).1.functions[World.start.g_ctx.function_count]?).map
        (fun e => e.name) = some (long_name.take (NAME_SIZE - 1)) ∧
    call_function (some long_name) 0 (some [])
        (⟨(register_str_func (some long_name) (some rpc_string_cb.stop_func)
            World.start.g_ctx).1, World.start.sent, World.start.calls, World.start.closed,
          World.start.joined⟩ : World) =
      echo_func 0 (some [])
        (⟨(register_str_func (some long_name) (some rpc_string_cb.stop_func)
            World.start.g_ctx).1, World.start.sent,
          World.start.calls ++ [(rpc_string_cb.echo_func, 0, some [])], World.start.closed,
          World.start.joined⟩ : World) ∧
    call_function (some (long_name.take (NAME_SIZE - 1))) 0 (some [])
        (⟨(register_str_func (some long_name) (some rpc_string_cb.stop_func)
            World.start.g_ctx).1, World.start.sent, World.start.calls, World.start.closed,
          World.start.joined⟩ : World) =
      run_cb rpc_string_cb.stop_func 0 (some [])
        (⟨(register_str_func (some long_name) (some rpc_string_cb.stop_func)
            World.start.g_ctx).1, World.start.sent,
          World.start.calls ++ [(rpc_string_cb.stop_func, 0, some [])], World.start.closed,
          World.start.joined⟩ : World) :=
  register_long_name World.start long_name rpc_string_cb.stop_func 0 (some []) (by decide)
    (by decide) (by decide) (by decide) (by decide)

end Rpc
